import Mathlib

/-!
# Item catalog viewer (`src/app.js`): normalisation, ordering, grouping, filtering

A shallow embedding of the pure core of `src/app.js`:

* `classesOf`, `toArray`, `sortItems` are translated function by function;
* the grouping loop of `render` is `renderGroups`, and the part of `render` that
  fills one list entry is `renderLi`;
* the body of the loop of `applyFilters` is `applyFilter`.

Modelling decisions.

* JSON values are the type `JVal`; a number is the exact rational value of the
  double (`!==`, the sign of a difference and `x|0` are computed exactly on
  it).  Strings are sequences of Unicode scalar values.
* An object is the list of its own properties in enumeration order.
* What the language leaves to the platform is a parameter, `Host`: the collation
  behind `String.prototype.localeCompare`, Unicode lower-casing, and the text of
  a number that is not a small integer.  ECMA-262 requires `localeCompare` to be a
  consistent comparison function; these laws are fields of `Host`.
* A conversion that throws a `TypeError` returns `none`, and so does every
  function through which the exception propagates.
* `Array.prototype.sort` is a stable sort; it is modelled by stable insertion
  sort on "the comparator returned a value that is not positive", with a `NaN`
  result read as `+0` as the language prescribes, and it throws when a
  comparison it makes throws.  The language fixes the result of `sort` only
  where the comparator is a consistent comparison function on the elements;
  the statements about the whole order (C1, C2) are made for such lists.
-/

namespace RpgItems

/-! ## JSON values -/

/-- A parsed JSON value. -/
inductive JVal where
  | null : JVal
  | bool (b : Bool) : JVal
  | num (q : ℚ) : JVal
  | str (s : String) : JVal
  | arr (xs : List JVal) : JVal
  | obj (kvs : List (String × JVal)) : JVal

namespace JVal

mutual
/-- Decidable equality of JSON values. -/
def decEq : (a b : JVal) → Decidable (a = b)
  | null, null => isTrue rfl
  | bool a, bool b =>
    if h : a = b then isTrue (by rw [h]) else isFalse (by intro e; cases e; exact h rfl)
  | num a, num b =>
    if h : a = b then isTrue (by rw [h]) else isFalse (by intro e; cases e; exact h rfl)
  | str a, str b =>
    if h : a = b then isTrue (by rw [h]) else isFalse (by intro e; cases e; exact h rfl)
  | arr a, arr b =>
    match decEqList a b with
    | isTrue h => isTrue (by rw [h])
    | isFalse h => isFalse (by intro e; cases e; exact h rfl)
  | obj a, obj b =>
    match decEqProps a b with
    | isTrue h => isTrue (by rw [h])
    | isFalse h => isFalse (by intro e; cases e; exact h rfl)
  | null, bool _ => isFalse (by intro e; cases e)
  | null, num _ => isFalse (by intro e; cases e)
  | null, str _ => isFalse (by intro e; cases e)
  | null, arr _ => isFalse (by intro e; cases e)
  | null, obj _ => isFalse (by intro e; cases e)
  | bool _, null => isFalse (by intro e; cases e)
  | bool _, num _ => isFalse (by intro e; cases e)
  | bool _, str _ => isFalse (by intro e; cases e)
  | bool _, arr _ => isFalse (by intro e; cases e)
  | bool _, obj _ => isFalse (by intro e; cases e)
  | num _, null => isFalse (by intro e; cases e)
  | num _, bool _ => isFalse (by intro e; cases e)
  | num _, str _ => isFalse (by intro e; cases e)
  | num _, arr _ => isFalse (by intro e; cases e)
  | num _, obj _ => isFalse (by intro e; cases e)
  | str _, null => isFalse (by intro e; cases e)
  | str _, bool _ => isFalse (by intro e; cases e)
  | str _, num _ => isFalse (by intro e; cases e)
  | str _, arr _ => isFalse (by intro e; cases e)
  | str _, obj _ => isFalse (by intro e; cases e)
  | arr _, null => isFalse (by intro e; cases e)
  | arr _, bool _ => isFalse (by intro e; cases e)
  | arr _, num _ => isFalse (by intro e; cases e)
  | arr _, str _ => isFalse (by intro e; cases e)
  | arr _, obj _ => isFalse (by intro e; cases e)
  | obj _, null => isFalse (by intro e; cases e)
  | obj _, bool _ => isFalse (by intro e; cases e)
  | obj _, num _ => isFalse (by intro e; cases e)
  | obj _, str _ => isFalse (by intro e; cases e)
  | obj _, arr _ => isFalse (by intro e; cases e)
/-- Decidable equality of lists of JSON values. -/
def decEqList : (a b : List JVal) → Decidable (a = b)
  | [], [] => isTrue rfl
  | [], _ :: _ => isFalse (by intro e; cases e)
  | _ :: _, [] => isFalse (by intro e; cases e)
  | x :: xs, y :: ys =>
    match decEq x y, decEqList xs ys with
    | isTrue h, isTrue h2 => isTrue (by rw [h, h2])
    | isFalse h, _ => isFalse (by intro e; cases e; exact h rfl)
    | _, isFalse h => isFalse (by intro e; cases e; exact h rfl)
/-- Decidable equality of property lists. -/
def decEqProps : (a b : List (String × JVal)) → Decidable (a = b)
  | [], [] => isTrue rfl
  | [], _ :: _ => isFalse (by intro e; cases e)
  | _ :: _, [] => isFalse (by intro e; cases e)
  | (k, x) :: xs, (l, y) :: ys =>
    if hk : k = l then
      match decEq x y, decEqProps xs ys with
      | isTrue h, isTrue h2 => isTrue (by rw [hk, h, h2])
      | isFalse h, _ => isFalse (by intro e; cases e; exact h rfl)
      | _, isFalse h => isFalse (by intro e; cases e; exact h rfl)
    else isFalse (by intro e; cases e; exact hk rfl)
end

instance : DecidableEq JVal := decEq

end JVal

/-- A JSON object: its own enumerable properties, in enumeration order. -/
abbrev Obj := List (String × JVal)

/-- Property read `o.k`; `none` stands for `undefined`. -/
def Obj.get (o : Obj) (k : String) : Option JVal :=
  match o with
  | [] => none
  | (k', v) :: rest => if k' = k then some v else Obj.get rest k

/-- Property write `o[k] = v`: an existing property keeps its place, a new one
goes last. -/
def Obj.set (o : Obj) (k : String) (v : JVal) : Obj :=
  match o with
  | [] => [(k, v)]
  | (k', v') :: rest => if k' = k then (k, v) :: rest else (k', v') :: Obj.set rest k v

/-- Object spread `{ ...target, ...src }` onto an object under construction: for
each own key of `src`, in order, the value read from `src` is written. -/
def spread (target src : Obj) : Obj :=
  (src.map Prod.fst).foldl
    (fun acc k => match src.get k with
      | some v => acc.set k v
      | none => acc) target

/-! ## The platform -/

/-- The platform functions the code calls, with the laws the language standard
gives them. -/
structure Host where
  /-- The sign-carrying result of `s.localeCompare(t)`. -/
  localeCompare : String → String → Int
  /-- The result of `s.toLowerCase()`. -/
  toLowerCase : String → String
  /-- The text of a number that is not an integer below `2^53` in size. -/
  formatNumber : ℚ → String
  compare_self : ∀ s, localeCompare s s = 0
  compare_antisymm : ∀ s t, 0 < localeCompare s t ↔ localeCompare t s < 0
  compare_trans : ∀ s t u, localeCompare s t ≤ 0 → localeCompare t u ≤ 0 →
    localeCompare s u ≤ 0
  lower_empty : toLowerCase "" = ""

/-- Canonical decomposition of six acute-accented letters (e, o, n, s, z, c with
acute: U+00E9, U+00F3, U+0144, U+015B, U+017A, U+0107) into the base letter and
the combining acute U+0301; every other character is kept. -/
def canonChar (c : Char) : List Nat :=
  if c = Char.ofNat 0xe9 then [0x65, 0x301]
  else if c = Char.ofNat 0xf3 then [0x6f, 0x301]
  else if c = Char.ofNat 0x144 then [0x6e, 0x301]
  else if c = Char.ofNat 0x15b then [0x73, 0x301]
  else if c = Char.ofNat 0x17a then [0x7a, 0x301]
  else if c = Char.ofNat 0x107 then [0x63, 0x301]
  else [c.toNat]

/-- The collation key of the reference host. -/
def canonKey (s : String) : List Nat := s.data.flatMap canonChar

/-- Three-way comparison of collation keys, code point by code point. -/
def keyCompare (a b : List Nat) : Int :=
  if a < b then -1 else if b < a then 1 else 0

/-- ASCII lower-casing; it is `toLowerCase` on every string whose upper-case
letters are all ASCII. -/
def asciiLower (s : String) : String := ⟨s.data.map Char.toLower⟩

/-- The power `2^z` as a rational. -/
def pow2 (z : Int) : ℚ :=
  if 0 ≤ z then ((2 ^ z.toNat : Nat) : ℚ) else 1 / ((2 ^ (-z).toNat : Nat) : ℚ)

/-- The power `10^z` as a rational. -/
def pow10 (z : Int) : ℚ :=
  if 0 ≤ z then ((10 ^ z.toNat : Nat) : ℚ) else 1 / ((10 ^ (-z).toNat : Nat) : ℚ)

/-- The integer `⌊log₂ n⌋` of a positive natural number: one less than the number
of its binary digits. -/
def log2Nat (n : Nat) : Nat := (Nat.toDigits 2 n).length - 1

/-- The integer `⌊log₂ x⌋` of a positive rational. -/
def floorLog2 (x : ℚ) : Int :=
  if x.den ≤ x.num.natAbs then (log2Nat (x.num.natAbs / x.den) : Int)
  else if x.num.natAbs * 2 ^ log2Nat (x.den / x.num.natAbs) = x.den then
    -(log2Nat (x.den / x.num.natAbs) : Int)
  else -(log2Nat (x.den / x.num.natAbs) : Int) - 1

/-- The spacing of the doubles at the positive double `x`. -/
def ulpOf (x : ℚ) : ℚ := pow2 (max (floorLog2 x - 52) (-1074))

/-- Whether the real `d` rounds (to nearest, ties to even) to the positive double `x`. -/
def roundsTo (x d : ℚ) : Bool :=
  let down := if x / ulpOf x = 4503599627370496 ∧ -1074 < floorLog2 x - 52 then ulpOf x / 4
    else ulpOf x / 2
  (decide (x - down < d) && decide (d < x + ulpOf x / 2))
    || (decide ((x / ulpOf x).num % 2 = 0)
        && (decide (d = x - down) || decide (d = x + ulpOf x / 2)))

/-- The `n` with `10^(n-1) ≤ x < 10^n`, for a positive rational in the range of the doubles. -/
def decExp (x : ℚ) : Int :=
  if 1 ≤ x then ((Nat.toDigits 10 x.floor.toNat).length : Int)
  else
    match (List.range 400).find? (fun j => decide (1 ≤ x * pow10 (j + 1))) with
    | some j => -(j : Int)
    | none => 0

/-- The digits `s` and the exponent `n` of the `k`-digit decimal nearest to `x` that
rounds to `x`, if there is one. -/
def digitsAt (x : ℚ) (n : Int) (k : Nat) : Option (Nat × Int) :=
  let scale := pow10 (n - k)
  let s1 := (x / scale).floor.toNat
  let up : Nat × Int := if s1 + 1 = 10 ^ k then (10 ^ (k - 1), n + 1) else (s1 + 1, n)
  match roundsTo x (s1 * scale), roundsTo x ((s1 + 1 : Nat) * scale) with
  | true, true =>
    if x - s1 * scale < (s1 + 1 : Nat) * scale - x then some (s1, n)
    else if (s1 + 1 : Nat) * scale - x < x - s1 * scale then some up
    else if s1 % 2 = 0 then some (s1, n) else some up
  | true, false => some (s1, n)
  | false, true => some up
  | false, false => none

/-- The shortest digits that read back as the positive double `x`. -/
def shortestDigits (x : ℚ) : Option (Nat × Int) :=
  (List.range 17).findSome? (fun k => digitsAt x (decExp x) (k + 1))

/-- A run of zeros. -/
def zeros (n : Nat) : String := ⟨List.replicate n '0'⟩

/-- The text of the positive double with digits `s` and decimal exponent `n`. -/
def layout (s : Nat) (n : Int) : String :=
  let ds := (toString s).data
  let k : Int := ds.length
  if k ≤ n ∧ n ≤ 21 then ⟨ds⟩ ++ zeros (n - k).toNat
  else if 0 < n ∧ n ≤ 21 then ⟨ds.take n.toNat⟩ ++ "." ++ ⟨ds.drop n.toNat⟩
  else if -6 < n ∧ n ≤ 0 then "0." ++ zeros (-n).toNat ++ ⟨ds⟩
  else
    (if ds.length = 1 then ⟨ds⟩ else ⟨ds.take 1⟩ ++ "." ++ ⟨ds.drop 1⟩)
      ++ "e" ++ (if 0 ≤ n - 1 then "+" else "-") ++ toString (n - 1).natAbs

/-- The text `String(x)` of a double, as the language defines it: the shortest
digits that read back as `x` (the nearest to `x` among them), laid out plainly up
to 21 integer digits or 6 leading zeros and in exponent form beyond. -/
def numberText (q : ℚ) : String :=
  if q = 0 then "0"
  else
    match shortestDigits |q| with
    | some (s, n) => (if q < 0 then "-" else "") ++ layout s n
    | none => "NaN"

/-- A reference host: collation by canonical key (so canonically equivalent
spellings of an accented letter tie, as the standard demands), ASCII
lower-casing, and the language's text of a number. -/
def refHost : Host where
  localeCompare s t := keyCompare (canonKey s) (canonKey t)
  toLowerCase := asciiLower
  formatNumber := numberText
  compare_self s := by simp [keyCompare]
  compare_antisymm s t := by
    unfold keyCompare
    rcases lt_trichotomy (canonKey s) (canonKey t) with h | h | h
    · simp [h, not_lt_of_lt h]
    · simp [h]
    · simp [h, not_lt_of_lt h]
  compare_trans s t u := by
    have key : ∀ a b : List Nat, keyCompare a b ≤ 0 ↔ a ≤ b := by
      intro a b
      unfold keyCompare
      rcases lt_trichotomy a b with h | h | h
      · simp [h, le_of_lt h]
      · simp [h]
      · simp [h, not_lt_of_lt h]
    rw [key, key, key]
    exact le_trans
  lower_empty := rfl

/-! ## Conversions of the language -/

/-- The text of a number: decimal digits for an integer below `2^53` in size
(there the shortest digits that read back as the number are all its digits), the
host's text otherwise. -/
def numberToString (H : Host) (q : ℚ) : String :=
  if q.den = 1 ∧ q.num.natAbs < 9007199254740992 then toString q.num else H.formatNumber q

/-- Joining strings with a separator. -/
def joinStrings (sep : String) : List String → String
  | [] => ""
  | [s] => s
  | s :: t :: rest => s ++ sep ++ joinStrings sep (t :: rest)

/-- Putting a converted element in front of the converted rest; an exception on
either side propagates. -/
def consText : Option String → Option (List String) → Option (List String)
  | some s, some r => some (s :: r)
  | _, _ => none

mutual
/-- The conversion `String(v)` of a JSON value; `none` is a `TypeError`. An
object with an own `toString` key (never callable in parsed JSON) has no
primitive value: its own key hides `Object.prototype.toString`, and `valueOf`
returns the object or is hidden as well. -/
def jsString (H : Host) : JVal → Option String
  | .null => some "null"
  | .bool true => some "true"
  | .bool false => some "false"
  | .num q => some (numberToString H q)
  | .str s => some s
  | .arr xs => (elemStrings H xs).map (joinStrings ",")
  | .obj kvs => if (Obj.get kvs "toString").isSome then none else some "[object Object]"
/-- The texts `Array.prototype.join` gives the elements: `null` is empty. -/
def elemStrings (H : Host) : List JVal → Option (List String)
  | [] => some []
  | .null :: xs => consText (some "") (elemStrings H xs)
  | .bool b :: xs => consText (jsString H (.bool b)) (elemStrings H xs)
  | .num q :: xs => consText (jsString H (.num q)) (elemStrings H xs)
  | .str s :: xs => consText (jsString H (.str s)) (elemStrings H xs)
  | .arr ys :: xs => consText (jsString H (.arr ys)) (elemStrings H xs)
  | .obj kvs :: xs => consText (jsString H (.obj kvs)) (elemStrings H xs)
end

/-- The conversion `String(v)` of a value that may be `undefined`; it is also the
property key `ToPropertyKey(v)`. -/
def jsStringOpt (H : Host) : Option JVal → Option String
  | none => some "undefined"
  | some v => jsString H v

/-- The call `xs.join(sep)`. -/
def jsJoin (H : Host) (sep : String) (xs : List JVal) : Option String :=
  (elemStrings H xs).map (joinStrings sep)

/-- Truthiness of a value. -/
def truthy : JVal → Bool
  | .null => false
  | .bool b => b
  | .num q => decide (q ≠ 0)
  | .str s => decide (s ≠ "")
  | .arr _ => true
  | .obj _ => true

/-- The expression `v || d`. -/
def orElse (v : Option JVal) (d : JVal) : JVal :=
  match v with
  | some x => if truthy x then x else d
  | none => d

/-- The expression `v ?? d`. -/
def nullish (v : Option JVal) (d : JVal) : JVal :=
  match v with
  | some .null => d
  | some x => x
  | none => d

/-- The test `Array.isArray(v)`. -/
def isArray : Option JVal → Bool
  | some (.arr _) => true
  | _ => false

/-- The test `typeof v === "string"`. -/
def isString : Option JVal → Bool
  | some (.str _) => true
  | _ => false

/-- The elements of a value known to be an array. -/
def elems : Option JVal → List JVal
  | some (.arr xs) => xs
  | _ => []

/-! ## classesOf -/

/-- The function `classesOf(entry)`. -/
def classesOf (entry : Obj) : List JVal :=
  if isArray (entry.get "klasy") then elems (entry.get "klasy")
  else if isArray (entry.get "Class") then elems (entry.get "Class")
  else if isString (entry.get "Class") then (entry.get "Class").toList
  else []

/-! ## toArray -/

/-- The parsed document: an array of record objects, or a map from id to record
object (its entries in the order of `Object.entries`). -/
inductive RawData where
  | array (entries : List Obj) : RawData
  | map (entries : List (String × Obj)) : RawData

/-- The call `data.map(o => ({ id: String(o.id ?? ""), ...o }))`. -/
def normalizeEntries (H : Host) : List Obj → Option (List Obj)
  | [] => some []
  | o :: rest =>
    match jsString H (nullish (o.get "id") (.str "")) with
    | none => none
    | some s =>
      match normalizeEntries H rest with
      | none => none
      | some rs => some (spread [("id", .str s)] o :: rs)

/-- The function `toArray(data)`; `none` is a `TypeError`. -/
def toArray (H : Host) : RawData → Option (List Obj)
  | .array entries => normalizeEntries H entries
  | .map entries => some (entries.map (fun e => spread [("id", .str e.1)] e.2))

/-! ## sortItems -/

/-- A number produced by the comparator: a rational or `NaN`. -/
inductive JNum where
  | nan : JNum
  | fin (q : ℚ) : JNum
  deriving DecidableEq

/-- What `QORDER[k] ?? 99` evaluates to: a rank, or the object found under an
inherited name (a method of `Object.prototype`, or the prototype itself). -/
inductive QVal where
  | rank (n : Nat) : QVal
  | inherited (name : String) : QVal
  deriving DecidableEq

/-- The table `QORDER`. -/
def QORDER : List (String × Nat) :=
  [("Zwykła", 0), ("Niezwykła", 1), ("Rzadka", 2), ("Epicka", 3), ("Legendarna", 4)]

/-- The property names an object literal inherits from `Object.prototype`. -/
def objectProtoKeys : List String :=
  ["constructor", "hasOwnProperty", "isPrototypeOf", "propertyIsEnumerable",
   "toLocaleString", "toString", "valueOf", "__proto__", "__defineGetter__",
   "__defineSetter__", "__lookupGetter__", "__lookupSetter__"]

/-- The lookup `QORDER[k] ?? 99` for a property key `k`. -/
def qorderAt (k : String) : QVal :=
  match QORDER.lookup k with
  | some n => .rank n
  | none => if k ∈ objectProtoKeys then .inherited k else .rank 99

/-- The expression `QORDER[j] ?? 99`; it throws when `j` has no property key. -/
def qorderOr99 (H : Host) (j : Option JVal) : Option QVal :=
  (jsStringOpt H j).map qorderAt

/-- The subtraction `qa - qb`: an object converts to `NaN`. -/
def qvalSub : QVal → QVal → JNum
  | .rank m, .rank n => .fin ((m : ℚ) - (n : ℚ))
  | _, _ => .nan

/-- The level the comparator uses: `req_lvl` if it is a number, else `1e9`. -/
def lvlOf (a : Obj) : ℚ :=
  match a.get "req_lvl" with
  | some (.num q) => q
  | _ => 1000000000

/-- The text `String(a.typ||"")`. -/
def typOf (H : Host) (a : Obj) : Option String := jsString H (orElse (a.get "typ") (.str ""))

/-- The text `String(a.nazwa||"")`. -/
def nazwaOf (H : Host) (a : Obj) : Option String :=
  jsString H (orElse (a.get "nazwa") (.str ""))

/-- The text `String(a.id)`. -/
def idOf (H : Host) (a : Obj) : Option String := jsStringOpt H (a.get "id")

/-- The last two lines of the comparator: the names, then the ids. -/
def compareNames (H : Host) (a b : Obj) : Option JNum :=
  match nazwaOf H a, nazwaOf H b with
  | some na, some nb =>
    if na ≠ nb then some (.fin (H.localeCompare na nb))
    else
      match idOf H a, idOf H b with
      | some ia, some ib => some (.fin (H.localeCompare ia ib))
      | _, _ => none
  | _, _ => none

/-- The comparator passed to `sort` in `sortItems`; `none` is a `TypeError`. -/
def compareItems (H : Host) (a b : Obj) : Option JNum :=
  if lvlOf a ≠ lvlOf b then some (.fin (lvlOf a - lvlOf b))
  else
    match qorderOr99 H (a.get "jakosc"), qorderOr99 H (b.get "jakosc") with
    | some qa, some qb =>
      if qa ≠ qb then some (qvalSub qa qb)
      else
        match typOf H a, typOf H b with
        | some ta, some tb =>
          if ta ≠ tb then some (.fin (H.localeCompare ta tb)) else compareNames H a b
        | _, _ => none
    | _, _ => none

/-- The number `sort` reads from the comparator: `NaN` counts as `+0`. -/
def sortNumber : JNum → ℚ
  | .nan => 0
  | .fin q => q

/-- The relation "`a` need not move behind `b`": the comparator returns, and not
a positive number. -/
def sortLe (H : Host) (a b : Obj) : Bool :=
  match compareItems H a b with
  | some v => decide (sortNumber v ≤ 0)
  | none => false

/-- Inserting `a` in front of the first element it need not move behind. -/
def sortInsert (H : Host) (a : Obj) : List Obj → Option (List Obj)
  | [] => some [a]
  | b :: l =>
    match compareItems H a b with
    | none => none
    | some v =>
      if sortNumber v ≤ 0 then some (a :: b :: l)
      else
        match sortInsert H a l with
        | none => none
        | some r => some (b :: r)

/-- The function `sortItems(items)`: a stable sort of a copy; `none` is a
`TypeError` thrown by the comparator. -/
def sortItems (H : Host) : List Obj → Option (List Obj)
  | [] => some []
  | a :: l =>
    match sortItems H l with
    | none => none
    | some s => sortInsert H a s

/-! ## The grouping loop of render -/

/-- The integer part of a number: rounding toward zero. -/
def truncate (q : ℚ) : Int := q.num.tdiv q.den

/-- The conversion `x|0` (ToInt32): truncate, reduce modulo `2^32`, read as a
signed 32-bit integer. -/
def toInt32 (q : ℚ) : Int :=
  if 2147483648 ≤ truncate q % 4294967296 then truncate q % 4294967296 - 4294967296
  else truncate q % 4294967296

/-- The two containers the loop fills: the `Map` `byLevel` (its entries in
insertion order) and the array `noLevel`. -/
structure Buckets where
  byLevel : List (Int × List Obj)
  noLevel : List Obj
  deriving DecidableEq

/-- The statements `if (!byLevel.has(key)) byLevel.set(key, []);
byLevel.get(key).push(it)`. -/
def pushLevel (m : List (Int × List Obj)) (key : Int) (it : Obj) : List (Int × List Obj) :=
  match m with
  | [] => [(key, [it])]
  | (k, es) :: rest =>
    if k = key then (k, es ++ [it]) :: rest else (k, es) :: pushLevel rest key it

/-- One turn of the loop `for (const it of items)`. -/
def groupStep (st : Buckets) (it : Obj) : Buckets :=
  match it.get "req_lvl" with
  | some (.num q) => { st with byLevel := pushLevel st.byLevel (toInt32 q) it }
  | _ => { st with noLevel := st.noLevel ++ [it] }

/-- The lookup `byLevel.get(lvl)`. -/
def mapGet (m : List (Int × List Obj)) (key : Int) : Option (List Obj) :=
  match m with
  | [] => none
  | (k, es) :: rest => if k = key then some es else mapGet rest key

/-- The array `levels`: the keys sorted by `(a,b)=>a-b`, then `null` when
`noLevel` is not empty. -/
def levelsOf (st : Buckets) : List (Option Int) :=
  ((st.byLevel.map Prod.fst).insertionSort (fun a b => a - b ≤ 0)).map some
    ++ (if st.noLevel.length ≠ 0 then [none] else [])

/-- The sections `render` builds, in order: the level of each (`none` for
"Bez poziomu") and its entries. -/
def renderGroups (items : List Obj) : List (Option Int × List Obj) :=
  (levelsOf (items.foldl groupStep ⟨[], []⟩)).map
    (fun lvl => (lvl,
      match lvl with
      | none => (items.foldl groupStep ⟨[], []⟩).noLevel
      | some k => (mapGet (items.foldl groupStep ⟨[], []⟩).byLevel k).getD []))

/-! ## The list entry and the filter -/

/-- What `render` stores in one `li.item` and `applyFilters` reads back: the
text of the `.name` element and the `data-` attributes. (The markup of the
`.meta` element, built from the same texts, is not part of the model.) -/
structure Li where
  name : String
  dataId : String
  dataTyp : String
  dataJakosc : String
  dataKlasy : String
  dataReq : String
  deriving DecidableEq

/-- The part of `render` that fills the entry of one item; `none` is a
`TypeError` from one of the conversions to text. -/
def renderLi (H : Host) (it : Obj) : Option Li :=
  match jsStringOpt H (it.get "id"), jsString H (orElse (it.get "typ") (.str "")),
    jsString H (orElse (it.get "jakosc") (.str "")), jsJoin H ", " (classesOf it),
    jsString H (nullish (it.get "req_lvl") (.str "")),
    jsString H (orElse (it.get "nazwa") (.str "(bez nazwy)")) with
  | some i, some t, some j, some k, some r, some n =>
    some { name := n, dataId := i, dataTyp := t, dataJakosc := j, dataKlasy := k, dataReq := r }
  | _, _, _, _, _, _ => none

/-- The values of the four controls `#q`, `#f-klasa`, `#f-typ`, `#f-jakosc`. -/
structure Controls where
  q : String
  klasa : String
  typ : String
  jakosc : String
  deriving DecidableEq

/-- The function `normalize(s)`, that is `(s||'').toLowerCase()`. -/
def normalize (H : Host) (s : String) : String :=
  H.toLowerCase (if s ≠ "" then s else "")

/-- The call `s.includes(t)`. -/
def includes (s t : String) : Bool := decide (t.data <:+: s.data)

/-- The characters `trim` removes: white space and line terminators. -/
def isJsSpace (c : Char) : Bool :=
  c.toNat ∈ [0x9, 0xA, 0xB, 0xC, 0xD, 0x20, 0xA0, 0x1680, 0x2000, 0x2001, 0x2002, 0x2003,
    0x2004, 0x2005, 0x2006, 0x2007, 0x2008, 0x2009, 0x200A, 0x2028, 0x2029, 0x202F, 0x205F,
    0x3000, 0xFEFF]

/-- The call `s.trim()`. -/
def jsTrim (s : String) : String :=
  ⟨((s.data.dropWhile isJsSpace).reverse.dropWhile isJsSpace).reverse⟩

/-- Splitting a character list at every comma. -/
def splitComma : List Char → List (List Char)
  | [] => [[]]
  | c :: cs =>
    if c = ',' then [] :: splitComma cs
    else match splitComma cs with
      | [] => [[c]]
      | p :: ps => (c :: p) :: ps

/-- The call `s.split(",")`. -/
def jsSplitComma (s : String) : List String := (splitComma s.data).map String.mk

/-- The body of the loop of `applyFilters` for one entry: the final `ok`. -/
def applyFilter (H : Host) (c : Controls) (li : Li) : Bool :=
  let ok1 :=
    if normalize H c.q ≠ "" then
      includes (normalize H li.name) (normalize H c.q)
        || includes (normalize H li.dataId) (normalize H c.q)
    else true
  let ok2 :=
    if ok1 ∧ c.klasa ≠ "" then
      decide (c.klasa ∈
        (jsSplitComma (if li.dataKlasy ≠ "" then li.dataKlasy else "")).map jsTrim)
    else ok1
  let ok3 := if ok2 ∧ c.typ ≠ "" then decide (li.dataTyp = c.typ) else ok2
  if ok3 ∧ c.jakosc ≠ "" then decide (li.dataJakosc = c.jakosc) else ok3

/-- Whether the entry rendered for `it` is shown after `applyFilters`; `none`
when `render` throws on `it`. -/
def visible (H : Host) (c : Controls) (it : Obj) : Option Bool :=
  (renderLi H it).map (applyFilter H c)

/-! ## Reference definitions and auxiliary notions -/

/-- The reconciliation rule in the words of the specification: the array
`klasy` first, else the array `Class`, else the scalar string `Class` as a
one-element sequence, else the empty sequence. -/
def classesOfSpec (entry : Obj) : List JVal :=
  match entry.get "klasy", entry.get "Class" with
  | some (.arr xs), _ => xs
  | _, some (.arr ys) => ys
  | _, some (.str s) => [.str s]
  | _, _ => []

/-- The level of a record whose `req_lvl` is a number; `none` when `req_lvl` is
absent or not a number. -/
def numericLevel (a : Obj) : Option ℚ :=
  match a.get "req_lvl" with
  | some (.num q) => some q
  | _ => none

/-- The key under which `render` files a record: `req_lvl|0` when `req_lvl` is a
number, `none` (the "no level" list) otherwise. -/
def levelKey (it : Obj) : Option Int :=
  match it.get "req_lvl" with
  | some (.num q) => some (toInt32 q)
  | _ => none

/-- The reference grouping: one group per integer level key that occurs, keys
ascending, holding the records with that key in input order; then, if some
record has no numeric level, the group of those records. -/
def groupSpec (items : List Obj) : List (Option Int × List Obj) :=
  (((items.filterMap levelKey).dedup.insertionSort (fun a b => a ≤ b)).map
      (fun k => (some k, items.filter (fun it => levelKey it = some k))))
    ++ (if items.filter (fun it => levelKey it = none) = [] then []
        else [(none, items.filter (fun it => levelKey it = none))])

/-- What the loop of `render` has built after a prefix `p` of the items. -/
structure GroupInv (p : List Obj) (st : Buckets) : Prop where
  noLevel_eq : st.noLevel = p.filter (fun it => levelKey it = none)
  keys_nodup : (st.byLevel.map Prod.fst).Nodup
  mem_keys : ∀ k, k ∈ st.byLevel.map Prod.fst ↔ some k ∈ p.map levelKey
  get_eq : ∀ k, k ∈ st.byLevel.map Prod.fst →
    mapGet st.byLevel k = some (p.filter (fun it => levelKey it = some k))

/-- The filter rule in the words of the specification, for a record `it` and
the entry `li` rendered for it (which carries the displayed name and the id, typ
and jakosc annotations): the conjunction of the four criteria, each skipped when
its control is empty. -/
def filterSpec (H : Host) (c : Controls) (it : Obj) (li : Li) : Prop :=
  (c.q = "" ∨ includes (H.toLowerCase li.name) (H.toLowerCase c.q) = true
    ∨ includes (H.toLowerCase li.dataId) (H.toLowerCase c.q) = true) ∧
  (c.klasa = "" ∨ JVal.str c.klasa ∈ classesOf it) ∧
  (c.typ = "" ∨ li.dataTyp = c.typ) ∧
  (c.jakosc = "" ∨ li.dataJakosc = c.jakosc)

instance (H : Host) (c : Controls) (it : Obj) (li : Li) : Decidable (filterSpec H c it li) := by
  unfold filterSpec
  exact inferInstance

/-- A class name the entry stores and reads back unchanged: a string without a
comma and without white space at either end. -/
def cleanClass (v : JVal) : Prop :=
  ∃ s, v = JVal.str s ∧ ',' ∉ s.data ∧ jsTrim s = s

/-- Comparing by `c` first and by `d` where `c` reports a tie. -/
def lexCmp {α : Type} (c d : α → α → ℚ) (a b : α) : ℚ :=
  if c a b ≠ 0 then c a b else d a b

/-- A consistent comparison function: the sign flips when the arguments are
swapped, and "not positive" is transitive. -/
structure Consistent {α : Type} (c : α → α → ℚ) : Prop where
  swap : ∀ a b, 0 < c a b ↔ c b a < 0
  trans : ∀ a b e, c a b ≤ 0 → c b e ≤ 0 → c a e ≤ 0

/-- The property key the comparator looks `jakosc` up under, where the
conversion succeeds. -/
def jakoscKey (H : Host) (a : Obj) : String := (jsStringOpt H (a.get "jakosc")).getD ""

/-- The text `String(a.typ||"")`, where the conversion succeeds. -/
def typText (H : Host) (a : Obj) : String := (typOf H a).getD ""

/-- The text `String(a.nazwa||"")`, where the conversion succeeds. -/
def nazwaText (H : Host) (a : Obj) : String := (nazwaOf H a).getD ""

/-- The text `String(a.id)`, where the conversion succeeds. -/
def idText (H : Host) (a : Obj) : String := (idOf H a).getD ""

/-- All four conversions the comparator can make on a record succeed. -/
def convertible (H : Host) (a : Obj) : Bool :=
  (jsStringOpt H (a.get "jakosc")).isSome && (typOf H a).isSome && (nazwaOf H a).isSome
    && (idOf H a).isSome

/-- The comparator returns (does not throw) on the pair. -/
def comparable (H : Host) (a b : Obj) : Bool := (compareItems H a b).isSome

/-- The quality rank of a record whose quality lookup yields a number. -/
def rankOf (H : Host) (a : Obj) : Nat :=
  match qorderAt (jakoscKey H a) with
  | .rank n => n
  | .inherited _ => 0

/-- The five sort keys compared one after the other: level, quality rank, then
type, name and id by the collation. -/
def keyCompareItems (H : Host) : Obj → Obj → ℚ :=
  lexCmp (fun a b => lvlOf a - lvlOf b)
    (lexCmp (fun a b => (rankOf H a : ℚ) - (rankOf H b : ℚ))
      (lexCmp (fun a b => (H.localeCompare (typText H a) (typText H b) : ℚ))
        (lexCmp (fun a b => (H.localeCompare (nazwaText H a) (nazwaText H b) : ℚ))
          (fun a b => (H.localeCompare (idText H a) (idText H b) : ℚ)))))

/-- A sample record: a sword of level 5. -/
def sampleSword : Obj :=
  [("id", .str "1"), ("nazwa", .str "Miecz"), ("typ", .str "Broń"),
   ("jakosc", .str "Rzadka"), ("klasy", .arr [.str "Wojownik"]), ("req_lvl", .num 5)]

/-- A sample record: a bow without a level. -/
def sampleBow : Obj :=
  [("id", .str "2"), ("nazwa", .str "Łuk"), ("jakosc", .str "Epicka")]

/-- A sample record: a second sword, equal to the first in everything but `id`. -/
def sampleSword2 : Obj :=
  [("id", .str "3"), ("nazwa", .str "Miecz"), ("typ", .str "Broń"),
   ("jakosc", .str "Rzadka"), ("req_lvl", .num 5)]

/-- The entry `render` builds for the first sample sword. -/
def sampleSwordLi : Li :=
  { name := "Miecz", dataId := "1", dataTyp := "Broń", dataJakosc := "Rzadka",
    dataKlasy := "Wojownik", dataReq := "5" }

/-! ## The comparator -/

theorem compareNames_swap (H : Host) (a b : Obj) (v : JNum)
    (h : compareNames H a b = some v) :
    ∃ w, compareNames H b a = some w ∧ (0 < sortNumber v ↔ sortNumber w < 0) := by
  unfold compareNames at h ⊢
  cases hna : nazwaOf H a with
  | none => simp [hna] at h
  | some na =>
    cases hnb : nazwaOf H b with
    | none => simp [hna, hnb] at h
    | some nb =>
      simp only [hna, hnb] at h ⊢
      by_cases hn : na = nb
      · have hn' : nb = na := hn.symm
        rw [if_neg (not_not.mpr hn)] at h
        rw [if_neg (not_not.mpr hn')]
        cases hia : idOf H a with
        | none => simp [hia] at h
        | some ia =>
          cases hib : idOf H b with
          | none => simp [hia, hib] at h
          | some ib =>
            simp only [hia, hib, Option.some.injEq] at h ⊢
            refine ⟨_, rfl, ?_⟩
            rw [← h]
            simp only [sortNumber]
            exact_mod_cast H.compare_antisymm ia ib
      · have hn' : ¬ nb = na := fun e => hn e.symm
        rw [if_pos hn] at h
        rw [if_pos hn']
        simp only [Option.some.injEq] at h
        refine ⟨_, rfl, ?_⟩
        rw [← h]
        simp only [sortNumber]
        exact_mod_cast H.compare_antisymm na nb

theorem compareItems_swap (H : Host) (a b : Obj) (v : JNum)
    (h : compareItems H a b = some v) :
    ∃ w, compareItems H b a = some w ∧ (0 < sortNumber v ↔ sortNumber w < 0) := by
  unfold compareItems at h ⊢
  by_cases h1 : lvlOf a = lvlOf b
  · have h1' : lvlOf b = lvlOf a := h1.symm
    rw [if_neg (not_not.mpr h1)] at h
    rw [if_neg (not_not.mpr h1')]
    cases hqa : qorderOr99 H (a.get "jakosc") with
    | none => simp [hqa] at h
    | some qa =>
      cases hqb : qorderOr99 H (b.get "jakosc") with
      | none => simp [hqa, hqb] at h
      | some qb =>
        simp only [hqa, hqb] at h ⊢
        by_cases h2 : qa = qb
        · have h2' : qb = qa := h2.symm
          rw [if_neg (not_not.mpr h2)] at h
          rw [if_neg (not_not.mpr h2')]
          cases hta : typOf H a with
          | none => simp [hta] at h
          | some ta =>
            cases htb : typOf H b with
            | none => simp [hta, htb] at h
            | some tb =>
              simp only [hta, htb] at h ⊢
              by_cases h3 : ta = tb
              · have h3' : tb = ta := h3.symm
                rw [if_neg (not_not.mpr h3)] at h
                rw [if_neg (not_not.mpr h3')]
                exact compareNames_swap H a b v h
              · have h3' : ¬ tb = ta := fun e => h3 e.symm
                rw [if_pos h3] at h
                rw [if_pos h3']
                simp only [Option.some.injEq] at h
                refine ⟨_, rfl, ?_⟩
                rw [← h]
                simp only [sortNumber]
                exact_mod_cast H.compare_antisymm ta tb
        · have h2' : ¬ qb = qa := fun e => h2 e.symm
          rw [if_pos h2] at h
          rw [if_pos h2']
          simp only [Option.some.injEq] at h
          refine ⟨_, rfl, ?_⟩
          rw [← h]
          cases qa <;> cases qb <;> simp [qvalSub, sortNumber]
  · have h1' : ¬ lvlOf b = lvlOf a := fun e => h1 e.symm
    rw [if_pos h1] at h
    rw [if_pos h1']
    simp only [Option.some.injEq] at h
    refine ⟨_, rfl, ?_⟩
    rw [← h]
    simp only [sortNumber]
    constructor <;> intro h <;> linarith

theorem sortLe_iff (H : Host) (a b : Obj) :
    sortLe H a b = true ↔ ∃ v, compareItems H a b = some v ∧ sortNumber v ≤ 0 := by
  unfold sortLe
  cases compareItems H a b with
  | none => simp
  | some v => simp

theorem sortLe_of_positive (H : Host) (a b : Obj) (v : JNum)
    (h : compareItems H a b = some v) (hv : ¬ sortNumber v ≤ 0) : sortLe H b a = true := by
  obtain ⟨w, hw, hsw⟩ := compareItems_swap H a b v h
  rw [sortLe_iff]
  exact ⟨w, hw, le_of_lt (hsw.mp (not_le.mp hv))⟩

theorem sortLe_lvl (H : Host) (a b : Obj) (h : sortLe H a b = true) : lvlOf a ≤ lvlOf b := by
  obtain ⟨v, hv, hle⟩ := (sortLe_iff H a b).mp h
  unfold compareItems at hv
  by_cases h1 : lvlOf a = lvlOf b
  · exact le_of_eq h1
  · rw [if_pos h1] at hv
    simp only [Option.some.injEq] at hv
    rw [← hv] at hle
    simp only [sortNumber] at hle
    linarith

theorem lvlOf_of_numericLevel (a : Obj) (q : ℚ) (h : numericLevel a = some q) :
    lvlOf a = q := by
  unfold numericLevel at h
  unfold lvlOf
  split at h <;> simp_all

theorem lvlOf_of_not_numeric (a : Obj) (h : numericLevel a = none) :
    lvlOf a = 1000000000 := by
  unfold numericLevel at h
  unfold lvlOf
  split at h <;> simp_all

/-! ## The sort -/

theorem sortInsert_head (H : Host) (a : Obj) (l s : List Obj)
    (h : sortInsert H a l = some s) : ∀ y ∈ s.head?, y = a ∨ y ∈ l.head? := by
  cases l with
  | nil =>
    simp only [sortInsert, Option.some.injEq] at h
    rw [← h]
    intro y hy
    simp at hy
    exact Or.inl hy.symm
  | cons b t =>
    unfold sortInsert at h
    cases hc : compareItems H a b with
    | none => simp [hc] at h
    | some v =>
      simp only [hc] at h
      by_cases hv : sortNumber v ≤ 0
      · rw [if_pos hv] at h
        simp only [Option.some.injEq] at h
        rw [← h]
        intro y hy
        simp at hy
        exact Or.inl hy.symm
      · rw [if_neg hv] at h
        cases hr : sortInsert H a t with
        | none => simp [hr] at h
        | some r =>
          simp only [hr, Option.some.injEq] at h
          rw [← h]
          intro y hy
          simp at hy
          exact Or.inr (by simp [hy])

theorem chain_sortInsert (H : Host) (a : Obj) :
    ∀ l s : List Obj, List.Chain' (fun x y => sortLe H x y = true) l →
      sortInsert H a l = some s → List.Chain' (fun x y => sortLe H x y = true) s := by
  intro l
  induction l with
  | nil =>
    intro s _ h
    simp only [sortInsert, Option.some.injEq] at h
    rw [← h]
    exact List.chain'_singleton a
  | cons b t ih =>
    intro s hch h
    unfold sortInsert at h
    cases hc : compareItems H a b with
    | none => simp [hc] at h
    | some v =>
      simp only [hc] at h
      by_cases hv : sortNumber v ≤ 0
      · rw [if_pos hv] at h
        simp only [Option.some.injEq] at h
        rw [← h]
        exact List.Chain'.cons ((sortLe_iff H a b).mpr ⟨v, hc, hv⟩) hch
      · rw [if_neg hv] at h
        cases hr : sortInsert H a t with
        | none => simp [hr] at h
        | some r =>
          simp only [hr, Option.some.injEq] at h
          rw [← h, List.chain'_cons']
          refine ⟨?_, ih r hch.tail hr⟩
          intro y hy
          rcases sortInsert_head H a t r hr y hy with e | e
          · rw [e]; exact sortLe_of_positive H a b v hc hv
          · exact (List.chain'_cons'.mp hch).1 y e

theorem chain_sortItems (H : Host) :
    ∀ xs out : List Obj, sortItems H xs = some out →
      List.Chain' (fun x y => sortLe H x y = true) out := by
  intro xs
  induction xs with
  | nil =>
    intro out h
    simp only [sortItems, Option.some.injEq] at h
    rw [← h]
    exact List.chain'_nil
  | cons a t ih =>
    intro out h
    unfold sortItems at h
    cases hs : sortItems H t with
    | none => simp [hs] at h
    | some s =>
      simp only [hs] at h
      exact chain_sortInsert H a s out (ih s hs) h

theorem sortInsert_of_chain (H : Host) (a : Obj) (l : List Obj)
    (h : List.Chain' (fun x y => sortLe H x y = true) (a :: l)) :
    sortInsert H a l = some (a :: l) := by
  cases l with
  | nil => rfl
  | cons b t =>
    obtain ⟨v, hv, hle⟩ := (sortLe_iff H a b).mp (List.chain'_cons.mp h).1
    unfold sortInsert
    simp only [hv, if_pos hle]

theorem sortItems_of_chain (H : Host) :
    ∀ l : List Obj, List.Chain' (fun x y => sortLe H x y = true) l →
      sortItems H l = some l := by
  intro l
  induction l with
  | nil => intro _; rfl
  | cons a t ih =>
    intro h
    unfold sortItems
    rw [ih h.tail]
    exact sortInsert_of_chain H a t h

theorem sortInsert_perm (H : Host) (a : Obj) :
    ∀ l s : List Obj, sortInsert H a l = some s → s.Perm (a :: l) := by
  intro l
  induction l with
  | nil =>
    intro s h
    simp only [sortInsert, Option.some.injEq] at h
    rw [← h]
  | cons b t ih =>
    intro s h
    unfold sortInsert at h
    cases hc : compareItems H a b with
    | none => simp [hc] at h
    | some v =>
      simp only [hc] at h
      by_cases hv : sortNumber v ≤ 0
      · rw [if_pos hv] at h
        simp only [Option.some.injEq] at h
        rw [← h]
      · rw [if_neg hv] at h
        cases hr : sortInsert H a t with
        | none => simp [hr] at h
        | some r =>
          simp only [hr, Option.some.injEq] at h
          rw [← h]
          exact ((ih r hr).cons b).trans (List.Perm.swap a b t)

theorem sortItems_perm (H : Host) :
    ∀ xs out : List Obj, sortItems H xs = some out → out.Perm xs := by
  intro xs
  induction xs with
  | nil =>
    intro out h
    simp only [sortItems, Option.some.injEq] at h
    rw [← h]
  | cons a t ih =>
    intro out h
    unfold sortItems at h
    cases hs : sortItems H t with
    | none => simp [hs] at h
    | some s =>
      simp only [hs] at h
      exact (sortInsert_perm H a s out h).trans ((ih s hs).cons a)

theorem sortInsert_returns (H : Host) (a : Obj) :
    ∀ l : List Obj, (∀ b ∈ l, comparable H a b = true) → ∃ s, sortInsert H a l = some s := by
  intro l
  induction l with
  | nil => intro _; exact ⟨[a], rfl⟩
  | cons b t ih =>
    intro hc
    have hb := hc b (List.mem_cons_self _ _)
    unfold comparable at hb
    obtain ⟨v, hv⟩ := Option.isSome_iff_exists.mp hb
    obtain ⟨r, hr⟩ := ih (fun x hx => hc x (List.mem_cons_of_mem _ hx))
    unfold sortInsert
    by_cases hle : sortNumber v ≤ 0
    · exact ⟨a :: b :: t, by simp only [hv, if_pos hle]⟩
    · exact ⟨b :: r, by simp only [hv, if_neg hle, hr]⟩

theorem sortItems_returns (H : Host) :
    ∀ xs : List Obj, xs.Pairwise (fun a b => comparable H a b = true) →
      ∃ out, sortItems H xs = some out := by
  intro xs
  induction xs with
  | nil => intro _; exact ⟨[], rfl⟩
  | cons a t ih =>
    intro hp
    obtain ⟨s, hs⟩ := ih (List.Pairwise.of_cons hp)
    have hperm := sortItems_perm H t s hs
    obtain ⟨r, hr⟩ := sortInsert_returns H a s
      (fun b hb => List.rel_of_pairwise_cons hp (hperm.mem_iff.mp hb))
    exact ⟨r, by unfold sortItems; simp only [hs, hr]⟩

theorem rel_of_chain_on {α : Type} (r : α → α → Prop) (P : α → Prop)
    (tr : ∀ a b c, P a → P b → P c → r a b → r b c → r a c) :
    ∀ (l : List α) (a : α), P a → (∀ x ∈ l, P x) → List.Chain r a l → ∀ b ∈ l, r a b := by
  intro l
  induction l with
  | nil => intro a _ _ _ b hb; exact absurd hb (List.not_mem_nil b)
  | cons c t ih =>
    intro a ha hP hch b hb
    have hc : P c := hP c (List.mem_cons_self _ _)
    have ht : ∀ x ∈ t, P x := fun x hx => hP x (List.mem_cons_of_mem _ hx)
    obtain ⟨hac, hct⟩ := List.chain_cons.mp hch
    rcases List.mem_cons.mp hb with e | e
    · rw [e]; exact hac
    · exact tr a c b ha hc (ht b e) hac (ih c hc ht hct b e)

theorem pairwise_of_chain_on {α : Type} (r : α → α → Prop) (P : α → Prop)
    (tr : ∀ a b c, P a → P b → P c → r a b → r b c → r a c) :
    ∀ l : List α, (∀ x ∈ l, P x) → List.Chain' r l → l.Pairwise r := by
  intro l
  induction l with
  | nil => intro _ _; exact List.Pairwise.nil
  | cons a t ih =>
    intro hP hch
    have ht : ∀ x ∈ t, P x := fun x hx => hP x (List.mem_cons_of_mem _ hx)
    refine List.Pairwise.cons ?_ (ih ht hch.tail)
    exact rel_of_chain_on r P tr t a (hP a (List.mem_cons_self _ _)) ht hch

theorem sortItems_pairwise_lvl (H : Host) (xs out : List Obj) (h : sortItems H xs = some out) :
    out.Pairwise (fun a b => lvlOf a ≤ lvlOf b) := by
  haveI : IsTrans Obj (fun a b => lvlOf a ≤ lvlOf b) := ⟨fun _ _ _ => le_trans⟩
  have hchain := chain_sortItems H xs out h
  exact List.chain'_iff_pairwise.mp (hchain.imp (fun {a b} => sortLe_lvl H a b))

/-! ## Properties of the object operations -/

theorem get_set (o : Obj) (k k' : String) (v : JVal) :
    (o.set k v).get k' = if k = k' then some v else o.get k' := by
  induction o with
  | nil =>
    by_cases h : k = k' <;> simp [Obj.set, Obj.get, h]
  | cons p rest ih =>
    obtain ⟨kp, vp⟩ := p
    by_cases h1 : kp = k
    · by_cases h2 : k = k'
      · simp [Obj.set, Obj.get, h1, h2]
      · simp [Obj.set, Obj.get, h1, h2]
    · by_cases h2 : k = k'
      · subst h2
        simp [Obj.set, Obj.get, h1, ih]
      · by_cases h3 : kp = k'
        · subst h3
          simp [Obj.set, Obj.get, h1, h2]
        · simp [Obj.set, Obj.get, h1, h2, h3, ih]

theorem get_eq_none_of_not_mem (o : Obj) (k : String) (h : k ∉ o.map Prod.fst) :
    o.get k = none := by
  induction o with
  | nil => rfl
  | cons p rest ih =>
    obtain ⟨kp, vp⟩ := p
    simp only [List.map_cons, List.mem_cons, not_or] at h
    have h1 : ¬ kp = k := fun e => h.1 e.symm
    simp [Obj.get, h1, ih h.2]

theorem get_foldl_keys (src : Obj) (k : String) :
    ∀ (ks : List String) (target : Obj),
      (ks.foldl (fun acc k => match src.get k with
        | some v => acc.set k v
        | none => acc) target).get k
      = if k ∈ ks then (match src.get k with
          | some v => some v
          | none => target.get k) else target.get k := by
  intro ks
  induction ks with
  | nil => intro target; simp
  | cons k0 ks ih =>
    intro target
    rw [List.foldl_cons, ih]
    by_cases h0 : k0 = k
    · subst h0
      cases hs : src.get k0 with
      | none => simp
      | some v => simp [get_set]
    · have h0' : ¬ k = k0 := fun e => h0 e.symm
      cases hs : src.get k0 with
      | none => simp [h0']
      | some v => simp [get_set, h0, h0']

theorem get_spread (target src : Obj) (k : String) :
    (spread target src).get k
      = match src.get k with
        | some v => some v
        | none => target.get k := by
  unfold spread
  rw [get_foldl_keys]
  by_cases h : k ∈ src.map Prod.fst
  · simp [h]
  · rw [if_neg h, get_eq_none_of_not_mem src k h]

/-! ## The grouping loop -/

theorem insertionSort_congr {α : Type} (r s : α → α → Prop) [DecidableRel r] [DecidableRel s]
    (h : ∀ a b, r a b ↔ s a b) (l : List α) :
    List.insertionSort r l = List.insertionSort s l := by
  have hins : ∀ (a : α) (t : List α), List.orderedInsert r a t = List.orderedInsert s a t := by
    intro a t
    induction t with
    | nil => rfl
    | cons b t ih =>
      by_cases hab : r a b
      · simp [List.orderedInsert, hab, (h a b).mp hab]
      · have hs : ¬ s a b := fun e => hab ((h a b).mpr e)
        simp [List.orderedInsert, hab, hs, ih]
  induction l with
  | nil => rfl
  | cons a t ih => simp [List.insertionSort, ih, hins]

theorem pushLevel_keys (m : List (Int × List Obj)) (key : Int) (it : Obj) :
    (pushLevel m key it).map Prod.fst
      = if key ∈ m.map Prod.fst then m.map Prod.fst else m.map Prod.fst ++ [key] := by
  induction m with
  | nil => simp [pushLevel]
  | cons p rest ih =>
    obtain ⟨k, es⟩ := p
    by_cases hk : k = key
    · simp [pushLevel, hk]
    · have hk' : ¬ key = k := fun e => hk e.symm
      by_cases hm : key ∈ rest.map Prod.fst
      · rw [if_pos hm] at ih
        have hm' : key ∈ ((k, es) :: rest).map Prod.fst := by
          rw [List.map_cons]; exact List.mem_cons_of_mem _ hm
        rw [if_pos hm']
        simp only [pushLevel, hk, if_false, List.map_cons, ih]
      · rw [if_neg hm] at ih
        have hm' : ¬ key ∈ ((k, es) :: rest).map Prod.fst := by
          rw [List.map_cons, List.mem_cons]
          rintro (e | e)
          · exact hk' e
          · exact hm e
        rw [if_neg hm']
        simp only [pushLevel, hk, if_false, List.map_cons, ih, List.cons_append]

theorem mapGet_pushLevel (m : List (Int × List Obj)) (key k : Int) (it : Obj) :
    mapGet (pushLevel m key it) k
      = if k = key then some ((mapGet m key).getD [] ++ [it]) else mapGet m k := by
  induction m with
  | nil =>
    by_cases h : k = key
    · simp [pushLevel, mapGet, h]
    · have h' : ¬ key = k := fun e => h e.symm
      simp [pushLevel, mapGet, h, h']
  | cons p rest ih =>
    obtain ⟨k0, es⟩ := p
    by_cases h0 : k0 = key
    · by_cases h : k = key
      · simp [pushLevel, mapGet, h0, h]
      · have h' : ¬ key = k := fun e => h e.symm
        simp [pushLevel, mapGet, h0, h, h']
    · by_cases h : k = key
      · subst h
        simp [pushLevel, mapGet, h0, ih]
      · by_cases h1 : k0 = k
        · simp [pushLevel, mapGet, h0, h, h1]
        · simp [pushLevel, mapGet, h0, h, h1, ih]

theorem mapGet_eq_none (m : List (Int × List Obj)) (k : Int) (h : k ∉ m.map Prod.fst) :
    mapGet m k = none := by
  induction m with
  | nil => rfl
  | cons p rest ih =>
    obtain ⟨k0, es⟩ := p
    simp only [List.map_cons, List.mem_cons, not_or] at h
    have h1 : ¬ k0 = k := fun e => h.1 e.symm
    simp [mapGet, h1, ih h.2]

theorem groupInv_nil : GroupInv [] ⟨[], []⟩ where
  noLevel_eq := rfl
  keys_nodup := List.nodup_nil
  mem_keys := by intro k; simp
  get_eq := by intro k hk; simp at hk

theorem groupInv_step (p : List Obj) (st : Buckets) (x : Obj) (h : GroupInv p st) :
    GroupInv (p ++ [x]) (groupStep st x) := by
  cases hx : levelKey x with
  | none =>
    have hstep : groupStep st x = { st with noLevel := st.noLevel ++ [x] } := by
      unfold levelKey at hx
      unfold groupStep
      split at hx
      · exact Option.noConfusion hx
      · rfl
    rw [hstep]
    refine ⟨?_, h.keys_nodup, ?_, ?_⟩
    · simp [List.filter_append, h.noLevel_eq, hx]
    · intro k
      rw [h.mem_keys k]
      simp [hx]
    · intro k hk
      rw [h.get_eq k hk]
      simp [List.filter_append, hx]
  | some key =>
    have hstep : groupStep st x = { st with byLevel := pushLevel st.byLevel key x } := by
      unfold levelKey at hx
      unfold groupStep
      split at hx
      · simp only [Option.some.injEq] at hx
        rw [hx]
      · exact Option.noConfusion hx
    rw [hstep]
    refine ⟨?_, ?_, ?_, ?_⟩
    · simp [List.filter_append, h.noLevel_eq, hx]
    · show ((pushLevel st.byLevel key x).map Prod.fst).Nodup
      rw [pushLevel_keys]
      by_cases hm : key ∈ st.byLevel.map Prod.fst
      · rw [if_pos hm]; exact h.keys_nodup
      · rw [if_neg hm]
        exact List.Nodup.append h.keys_nodup (List.nodup_singleton key)
          (by simpa using hm)
    · intro k
      show k ∈ (pushLevel st.byLevel key x).map Prod.fst ↔ _
      rw [pushLevel_keys]
      by_cases hm : key ∈ st.byLevel.map Prod.fst
      · rw [if_pos hm, h.mem_keys k]
        simp only [List.map_append, List.mem_append, List.map_cons, List.map_nil,
          List.mem_singleton, hx, Option.some.injEq]
        constructor
        · exact Or.inl
        · rintro (e | e)
          · exact e
          · rw [e]; exact (h.mem_keys key).mp hm
      · rw [if_neg hm]
        simp only [List.map_append, List.mem_append, List.map_cons, List.map_nil,
          List.mem_singleton, hx, Option.some.injEq, h.mem_keys k]
    · intro k hk
      show mapGet (pushLevel st.byLevel key x) k = _
      have hk' : k ∈ (pushLevel st.byLevel key x).map Prod.fst := hk
      rw [pushLevel_keys] at hk'
      rw [mapGet_pushLevel]
      by_cases hkk : k = key
      · subst hkk
        rw [if_pos rfl]
        by_cases hm : k ∈ st.byLevel.map Prod.fst
        · rw [h.get_eq k hm]
          simp [List.filter_append, hx]
        · rw [mapGet_eq_none _ _ hm]
          have hnone : p.filter (fun it => levelKey it = some k) = [] := by
            rw [List.filter_eq_nil_iff]
            intro a ha
            have : ¬ some k ∈ p.map levelKey := fun e => hm ((h.mem_keys k).mpr e)
            simp only [decide_eq_true_eq]
            intro e
            exact this (e ▸ List.mem_map_of_mem levelKey ha)
          simp [List.filter_append, hx, hnone]
      · rw [if_neg hkk]
        have hm : k ∈ st.byLevel.map Prod.fst := by
          by_cases hm0 : key ∈ st.byLevel.map Prod.fst
          · rw [if_pos hm0] at hk'; exact hk'
          · rw [if_neg hm0] at hk'
            rcases List.mem_append.mp hk' with e | e
            · exact e
            · exact absurd (List.mem_singleton.mp e) hkk
        rw [h.get_eq k hm]
        have : ¬ key = k := fun e => hkk e.symm
        simp [List.filter_append, hx, this]

theorem groupInv_foldl (items : List Obj) :
    GroupInv items (items.foldl groupStep ⟨[], []⟩) := by
  induction items using List.reverseRecOn with
  | nil => exact groupInv_nil
  | append_singleton p x ih =>
    rw [List.foldl_append]
    exact groupInv_step p _ x ih

theorem sortedKeys_eq (items : List Obj) :
    ((items.foldl groupStep ⟨[], []⟩).byLevel.map Prod.fst).insertionSort (fun a b => a - b ≤ 0)
      = (items.filterMap levelKey).dedup.insertionSort (fun a b => a ≤ b) := by
  have inv := groupInv_foldl items
  rw [insertionSort_congr (fun a b : Int => a - b ≤ 0) (fun a b => a ≤ b)
    (fun a b => sub_nonpos)]
  have hperm : List.Perm ((items.foldl groupStep ⟨[], []⟩).byLevel.map Prod.fst)
      (items.filterMap levelKey).dedup := by
    rw [List.perm_ext_iff_of_nodup inv.keys_nodup (List.nodup_dedup _)]
    intro k
    rw [inv.mem_keys k, List.mem_dedup, List.mem_filterMap, List.mem_map]
  exact List.eq_of_perm_of_sorted
    (((List.perm_insertionSort _ _).trans hperm).trans (List.perm_insertionSort _ _).symm)
    (List.sorted_insertionSort _ _) (List.sorted_insertionSort _ _)

theorem renderGroups_eq_groupSpec (items : List Obj) :
    renderGroups items = groupSpec items := by
  have inv := groupInv_foldl items
  unfold renderGroups groupSpec levelsOf
  rw [List.map_append, List.map_map, sortedKeys_eq]
  congr 1
  · apply List.map_congr_left
    intro k hk
    have hk' : k ∈ (items.foldl groupStep ⟨[], []⟩).byLevel.map Prod.fst := by
      rw [List.mem_insertionSort, List.mem_dedup, List.mem_filterMap] at hk
      rw [inv.mem_keys k, List.mem_map]
      exact hk
    simp [inv.get_eq k hk']
  · rw [inv.noLevel_eq]
    by_cases hnil : items.filter (fun it => levelKey it = none) = []
    · simp [hnil]
    · rw [if_neg hnil, if_pos (by simpa using hnil)]
      rfl

theorem groupSpec_keys (items : List Obj) :
    (groupSpec items).map Prod.fst
      = ((items.filterMap levelKey).dedup.insertionSort (fun a b => a ≤ b)).map some
        ++ (if items.filter (fun it => levelKey it = none) = [] then [] else [none]) := by
  unfold groupSpec
  rw [List.map_append, List.map_map]
  congr 1
  by_cases hnil : items.filter (fun it => levelKey it = none) = []
  · simp [hnil]
  · simp [hnil]

theorem sortedKeys_strict (items : List Obj) :
    ((items.filterMap levelKey).dedup.insertionSort (fun a b => a ≤ b)).Sorted
      (fun a b => a < b) :=
  List.Sorted.lt_of_le (List.sorted_insertionSort _ _)
    ((List.perm_insertionSort _ _).nodup_iff.mpr (List.nodup_dedup _))

theorem mem_groupSpec (items : List Obj) (g : Option Int × List Obj)
    (hg : g ∈ groupSpec items) :
    g.2 ≠ [] ∧ g.2 = items.filter (fun it => levelKey it = g.1) := by
  unfold groupSpec at hg
  rcases List.mem_append.mp hg with h | h
  · obtain ⟨k, hk, rfl⟩ := List.mem_map.mp h
    rw [List.mem_insertionSort, List.mem_dedup, List.mem_filterMap] at hk
    obtain ⟨a, ha, hak⟩ := hk
    refine ⟨?_, rfl⟩
    intro e
    have : a ∈ items.filter (fun it => levelKey it = some k) := by
      simp [List.mem_filter, ha, hak]
    simp only at e
    rw [e] at this
    exact List.not_mem_nil _ this
  · by_cases hnil : items.filter (fun it => levelKey it = none) = []
    · simp [hnil] at h
    · rw [if_neg hnil] at h
      rw [List.mem_singleton.mp h]
      exact ⟨hnil, rfl⟩

theorem groupSpec_covers (items : List Obj) (it : Obj) (hit : it ∈ items) :
    (levelKey it, items.filter (fun x => levelKey x = levelKey it)) ∈ groupSpec items := by
  unfold groupSpec
  cases hk : levelKey it with
  | none =>
    have hne : items.filter (fun x => levelKey x = none) ≠ [] := by
      intro e
      have : it ∈ items.filter (fun x => levelKey x = none) := by
        simp [List.mem_filter, hit, hk]
      rw [e] at this
      exact List.not_mem_nil _ this
    rw [if_neg hne]
    exact List.mem_append_right _ (List.mem_singleton.mpr rfl)
  | some k =>
    apply List.mem_append_left
    rw [List.mem_map]
    refine ⟨k, ?_, rfl⟩
    rw [List.mem_insertionSort, List.mem_dedup, List.mem_filterMap]
    exact ⟨it, hit, hk⟩

theorem toInt32_of_range (q : ℚ) (hlo : -2147483648 ≤ truncate q)
    (hhi : truncate q < 2147483648) : toInt32 q = truncate q := by
  unfold toInt32
  generalize truncate q = t at hlo hhi
  split_ifs <;> omega

theorem truncate_eq_floor_or_ceil (q : ℚ) :
    truncate q = if 0 ≤ q then ⌊q⌋ else ⌈q⌉ := by
  unfold truncate
  by_cases h : 0 ≤ q
  · rw [if_pos h, Rat.floor_def]
    exact Int.tdiv_eq_ediv (Rat.num_nonneg.mpr h) (Int.ofNat_nonneg _)
  · rw [if_neg h]
    have hneg : 0 ≤ -q := by linarith [not_le.mp h]
    have h1 : ⌈q⌉ = -⌊-q⌋ := by rw [Int.floor_neg, neg_neg]
    rw [h1, Rat.floor_def, Rat.neg_num, Rat.neg_den]
    have h2 : 0 ≤ -q.num := by
      have := Rat.num_nonneg.mpr hneg
      rwa [Rat.neg_num] at this
    rw [← Int.tdiv_eq_ediv h2 (Int.ofNat_nonneg _), Int.neg_tdiv, neg_neg]

theorem levelKey_of_numericLevel (a : Obj) (q : ℚ) (h : numericLevel a = some q) :
    levelKey a = some (toInt32 q) := by
  unfold numericLevel at h
  unfold levelKey
  split at h
  · simp only [Option.some.injEq] at h
    rw [h]
  · exact Option.noConfusion h

/-! ## The filter -/

theorem normalize_eq (H : Host) (s : String) : normalize H s = H.toLowerCase s := by
  unfold normalize
  by_cases h : s = ""
  · simp [h]
  · simp [h]

theorem includes_empty (s : String) : includes s "" = true := by
  simp [includes]

theorem splitComma_ne_nil (l : List Char) : splitComma l ≠ [] := by
  cases l with
  | nil => simp [splitComma]
  | cons c cs =>
    unfold splitComma
    split_ifs
    · simp
    · split <;> simp

theorem splitComma_no_comma (p : List Char) (hp : ',' ∉ p) : splitComma p = [p] := by
  induction p with
  | nil => rfl
  | cons c cs ih =>
    simp only [List.mem_cons, not_or] at hp
    have hc : ¬ c = ',' := fun e => hp.1 e.symm
    simp [splitComma, hc, ih hp.2]

theorem splitComma_append_comma (p r : List Char) (hp : ',' ∉ p) :
    splitComma (p ++ ',' :: r) = p :: splitComma r := by
  induction p with
  | nil => simp [splitComma]
  | cons c cs ih =>
    simp only [List.mem_cons, not_or] at hp
    have hc : ¬ c = ',' := fun e => hp.1 e.symm
    simp [splitComma, hc, ih hp.2]

theorem jsTrim_space_cons (p : List Char) : jsTrim ⟨' ' :: p⟩ = jsTrim ⟨p⟩ := by
  have h : isJsSpace ' ' = true := by decide
  simp [jsTrim, List.dropWhile, h]

theorem split_join (ss : List String) (hne : ss ≠ [])
    (hclean : ∀ s ∈ ss, ',' ∉ s.data ∧ jsTrim s = s) :
    (jsSplitComma (joinStrings ", " ss)).map jsTrim = ss := by
  induction ss with
  | nil => exact absurd rfl hne
  | cons s rest ih =>
    cases rest with
    | nil =>
      have hs := hclean s (List.mem_cons_self _ _)
      simp [joinStrings, jsSplitComma, splitComma_no_comma _ hs.1, hs.2]
    | cons t rest' =>
      have hs := hclean s (List.mem_cons_self _ _)
      have ih' := ih (List.cons_ne_nil _ _)
        (fun x hx => hclean x (List.mem_cons_of_mem _ hx))
      have hdata : (joinStrings ", " (s :: t :: rest')).data
          = s.data ++ ',' :: ' ' :: (joinStrings ", " (t :: rest')).data := by
        simp [joinStrings, String.data_append]
      unfold jsSplitComma at ih' ⊢
      rw [hdata, splitComma_append_comma _ _ hs.1]
      cases hsp : splitComma (joinStrings ", " (t :: rest')).data with
      | nil => exact absurd hsp (splitComma_ne_nil _)
      | cons p ps =>
        rw [hsp] at ih'
        have hsp2 : splitComma (' ' :: (joinStrings ", " (t :: rest')).data)
            = (' ' :: p) :: ps := by
          have hc : ¬ (' ' : Char) = ',' := by decide
          simp [splitComma, hc, hsp]
        rw [hsp2]
        simp only [List.map_cons] at ih' ⊢
        rw [jsTrim_space_cons, ih']
        simp [hs.2]

theorem elemStrings_strs (H : Host) (ss : List String) :
    elemStrings H (ss.map JVal.str) = some ss := by
  induction ss with
  | nil => simp [elemStrings]
  | cons s rest ih => simp [elemStrings, jsString, ih, consText]

theorem all_strs (cs : List JVal) (h : ∀ v ∈ cs, cleanClass v) :
    ∃ ss : List String, cs = ss.map JVal.str ∧ ∀ s ∈ ss, ',' ∉ s.data ∧ jsTrim s = s := by
  induction cs with
  | nil => exact ⟨[], rfl, by simp⟩
  | cons v rest ih =>
    obtain ⟨s, hv, hs⟩ := h v (List.mem_cons_self _ _)
    obtain ⟨ss, hss, hcl⟩ := ih (fun x hx => h x (List.mem_cons_of_mem _ hx))
    refine ⟨s :: ss, by simp [hv, hss], ?_⟩
    intro x hx
    rcases List.mem_cons.mp hx with e | e
    · rw [e]; exact hs
    · exact hcl x e

theorem renderLi_klasy (H : Host) (it : Obj) (li : Li) (hr : renderLi H it = some li) :
    jsJoin H ", " (classesOf it) = some li.dataKlasy := by
  unfold renderLi at hr
  split at hr
  · next h1 h2 h3 h4 h5 h6 =>
    cases hr
    exact h4
  · exact Option.noConfusion hr

theorem renderLi_typ (H : Host) (it : Obj) (li : Li) (hr : renderLi H it = some li) :
    jsString H (orElse (it.get "typ") (.str "")) = some li.dataTyp := by
  unfold renderLi at hr
  split at hr
  · next h1 h2 h3 h4 h5 h6 =>
    cases hr
    exact h2
  · exact Option.noConfusion hr

theorem renderLi_jakosc (H : Host) (it : Obj) (li : Li) (hr : renderLi H it = some li) :
    jsString H (orElse (it.get "jakosc") (.str "")) = some li.dataJakosc := by
  unfold renderLi at hr
  split at hr
  · next h1 h2 h3 h4 h5 h6 =>
    cases hr
    exact h3
  · exact Option.noConfusion hr

theorem text_of_str (H : Host) (s t : String)
    (h : jsString H (orElse (some (.str s)) (.str "")) = some t) : t = s := by
  by_cases hs : s = ""
  · subst hs
    simpa [orElse, truthy, jsString] using h.symm
  · simpa [orElse, truthy, jsString, hs] using h.symm

theorem klasa_match (H : Host) (it : Obj) (li : Li) (kv : String) (hkv : kv ≠ "")
    (hr : renderLi H it = some li) (hcls : ∀ v ∈ classesOf it, cleanClass v) :
    kv ∈ (jsSplitComma (if li.dataKlasy ≠ "" then li.dataKlasy else "")).map jsTrim
      ↔ JVal.str kv ∈ classesOf it := by
  obtain ⟨ss, hss, hcl⟩ := all_strs (classesOf it) hcls
  have hk := renderLi_klasy H it li hr
  rw [hss] at hk
  simp only [jsJoin, elemStrings_strs, Option.map_some', Option.some.injEq] at hk
  have hd : (if li.dataKlasy ≠ "" then li.dataKlasy else "") = joinStrings ", " ss := by
    rw [← hk]
    by_cases h : joinStrings ", " ss = ""
    · simp [h]
    · simp [h]
  rw [hd, hss]
  by_cases hne : ss = []
  · subst hne
    have : jsTrim "" = "" := by decide
    simp [joinStrings, jsSplitComma, splitComma, this, hkv]
  · rw [split_join ss hne hcl]
    simp

theorem ok_chain (b1 k2 k3 k4 : Bool) (p2 p3 p4 : Prop) [Decidable p2] [Decidable p3]
    [Decidable p4] :
    (if (if (if b1 = true ∧ p2 then k2 else b1) = true ∧ p3 then k3
          else (if b1 = true ∧ p2 then k2 else b1)) = true ∧ p4 then k4
      else (if (if b1 = true ∧ p2 then k2 else b1) = true ∧ p3 then k3
          else (if b1 = true ∧ p2 then k2 else b1))) = true
      ↔ b1 = true ∧ (¬ p2 ∨ k2 = true) ∧ (¬ p3 ∨ k3 = true) ∧ (¬ p4 ∨ k4 = true) := by
  by_cases h2 : p2 <;> by_cases h3 : p3 <;> by_cases h4 : p4 <;>
    cases b1 <;> cases k2 <;> cases k3 <;> cases k4 <;> simp [h2, h3, h4]

theorem applyFilter_iff (H : Host) (c : Controls) (li : Li) :
    applyFilter H c li = true ↔
      (c.q = "" ∨ includes (H.toLowerCase li.name) (H.toLowerCase c.q) = true
        ∨ includes (H.toLowerCase li.dataId) (H.toLowerCase c.q) = true) ∧
      (c.klasa = "" ∨ c.klasa ∈
        (jsSplitComma (if li.dataKlasy ≠ "" then li.dataKlasy else "")).map jsTrim) ∧
      (c.typ = "" ∨ li.dataTyp = c.typ) ∧
      (c.jakosc = "" ∨ li.dataJakosc = c.jakosc) := by
  unfold applyFilter
  simp only []
  rw [ok_chain]
  refine and_congr ?_ (and_congr ?_ (and_congr ?_ ?_))
  · rw [normalize_eq, normalize_eq, normalize_eq]
    by_cases hq : H.toLowerCase c.q = ""
    · simp [hq, includes_empty]
    · have hq' : c.q ≠ "" := fun e => hq (by rw [e]; exact H.lower_empty)
      simp [hq, hq']
  · simp only [ne_eq, not_not, decide_eq_true_eq]
  · simp only [ne_eq, not_not, decide_eq_true_eq]
  · simp only [ne_eq, not_not, decide_eq_true_eq]

/-! ## The comparator as a strict total order -/

theorem eq_of_perm_of_sorted_on {α : Type} (r : α → α → Prop) (l₁ l₂ : List α)
    (hp : l₁.Perm l₂) (h1 : l₁.Sorted r) (h2 : l₂.Sorted r)
    (anti : ∀ a ∈ l₁, ∀ b ∈ l₁, r a b → r b a → a = b) : l₁ = l₂ := by
  haveI : IsAntisymm α (fun a b => r a b ∧ (r b a → a = b)) :=
    ⟨fun a b hab hba => hab.2 hba.1⟩
  have s1 : l₁.Sorted (fun a b => r a b ∧ (r b a → a = b)) :=
    List.Pairwise.imp_of_mem (fun {a b} ha hb hab => ⟨hab, anti a ha b hb hab⟩) h1
  have s2 : l₂.Sorted (fun a b => r a b ∧ (r b a → a = b)) :=
    List.Pairwise.imp_of_mem
      (fun {a b} ha hb hab => ⟨hab, anti a (hp.mem_iff.mpr ha) b (hp.mem_iff.mpr hb) hab⟩) h2
  exact List.eq_of_perm_of_sorted hp s1 s2

theorem Consistent.zero_symm {α : Type} {c : α → α → ℚ} (hc : Consistent c) (a b : α)
    (h : c a b = 0) : c b a = 0 := by
  have h1 : ¬ c b a < 0 := fun e => by
    have := (hc.swap a b).mpr e
    linarith
  have h2 : ¬ 0 < c b a := fun e => by
    have := (hc.swap b a).mp e
    linarith
  linarith [not_lt.mp h1, not_lt.mp h2]

theorem Consistent.nonneg_swap {α : Type} {c : α → α → ℚ} (hc : Consistent c) (a b : α)
    (h : c a b ≤ 0) : 0 ≤ c b a := by
  by_contra hn
  have := (hc.swap a b).mpr (not_le.mp hn)
  linarith

theorem Consistent.tie_of_trans {α : Type} {c : α → α → ℚ} (hc : Consistent c)
    (a b e : α) (hab : c a b ≤ 0) (hbe : c b e ≤ 0) (hae : c a e = 0) :
    c a b = 0 ∧ c b e = 0 := by
  have hea : c e a ≤ 0 := le_of_eq (hc.zero_symm a e hae)
  have hba : c b a ≤ 0 := hc.trans b e a hbe hea
  have heb : c e b ≤ 0 := hc.trans e a b hea hab
  have h1 := hc.nonneg_swap b a hba
  have h2 := hc.nonneg_swap e b heb
  exact ⟨le_antisymm hab h1, le_antisymm hbe h2⟩

theorem Consistent.lex {α : Type} {c d : α → α → ℚ} (hc : Consistent c) (hd : Consistent d) :
    Consistent (lexCmp c d) where
  swap := by
    intro a b
    unfold lexCmp
    by_cases h : c a b = 0
    · have h' := hc.zero_symm a b h
      simp only [h, h', ne_eq, not_true_eq_false, if_false]
      exact hd.swap a b
    · have h' : ¬ c b a = 0 := fun e => h (hc.zero_symm b a e)
      simp only [h, h', ne_eq, not_false_eq_true, if_true]
      exact hc.swap a b
  trans := by
    intro a b e hab hbe
    have cab : c a b ≤ 0 := by
      unfold lexCmp at hab
      by_cases h : c a b = 0
      · exact le_of_eq h
      · simpa [h] using hab
    have cbe : c b e ≤ 0 := by
      unfold lexCmp at hbe
      by_cases h : c b e = 0
      · exact le_of_eq h
      · simpa [h] using hbe
    have cae := hc.trans a b e cab cbe
    unfold lexCmp
    by_cases h : c a e = 0
    · obtain ⟨z1, z2⟩ := hc.tie_of_trans a b e cab cbe h
      unfold lexCmp at hab hbe
      simp only [z1, z2, ne_eq, not_true_eq_false, if_false] at hab hbe
      simp only [h, ne_eq, not_true_eq_false, if_false]
      exact hd.trans a b e hab hbe
    · simpa [h] using cae

theorem lexCmp_eq_zero {α : Type} (c d : α → α → ℚ) (a b : α) (h : lexCmp c d a b = 0) :
    c a b = 0 ∧ d a b = 0 := by
  unfold lexCmp at h
  by_cases hc : c a b = 0
  · simp only [hc, ne_eq, not_true_eq_false, if_false] at h
    exact ⟨hc, h⟩
  · rw [if_pos hc] at h
    exact absurd h hc

theorem consistent_sub {α : Type} (f : α → ℚ) : Consistent (fun a b => f a - f b) where
  swap := by intro a b; constructor <;> intro h <;> linarith
  trans := by intro a b e h1 h2; linarith

theorem consistent_collation (H : Host) (f : Obj → String) :
    Consistent (fun a b => (H.localeCompare (f a) (f b) : ℚ)) where
  swap := by
    intro a b
    exact_mod_cast H.compare_antisymm (f a) (f b)
  trans := by
    intro a b e h1 h2
    have h1' : H.localeCompare (f a) (f b) ≤ 0 := by exact_mod_cast h1
    have h2' : H.localeCompare (f b) (f e) ≤ 0 := by exact_mod_cast h2
    exact_mod_cast H.compare_trans _ _ _ h1' h2'

theorem consistent_keyCompareItems (H : Host) : Consistent (keyCompareItems H) :=
  (consistent_sub lvlOf).lex
    ((consistent_sub (fun a => (rankOf H a : ℚ))).lex
      ((consistent_collation H (typText H)).lex
        ((consistent_collation H (nazwaText H)).lex (consistent_collation H (idText H)))))

theorem qorderAt_rank (H : Host) (a : Obj) (h : jakoscKey H a ∉ objectProtoKeys) :
    qorderAt (jakoscKey H a) = .rank (rankOf H a) := by
  unfold rankOf qorderAt
  cases List.lookup (jakoscKey H a) QORDER with
  | none => simp [h]
  | some n => simp

theorem convertible_texts (H : Host) (a : Obj) (h : convertible H a = true) :
    qorderOr99 H (a.get "jakosc") = some (qorderAt (jakoscKey H a)) ∧
    typOf H a = some (typText H a) ∧ nazwaOf H a = some (nazwaText H a) ∧
    idOf H a = some (idText H a) := by
  unfold convertible at h
  simp only [Bool.and_eq_true] at h
  obtain ⟨⟨⟨hk, ht⟩, hn⟩, hi⟩ := h
  obtain ⟨k, hk⟩ := Option.isSome_iff_exists.mp hk
  obtain ⟨t, ht⟩ := Option.isSome_iff_exists.mp ht
  obtain ⟨n, hn⟩ := Option.isSome_iff_exists.mp hn
  obtain ⟨i, hi⟩ := Option.isSome_iff_exists.mp hi
  refine ⟨?_, ?_, ?_, ?_⟩
  · simp [qorderOr99, jakoscKey, hk]
  · simp [typText, ht]
  · simp [nazwaText, hn]
  · simp [idText, hi]

theorem compareItems_eq_key (H : Host) (a b : Obj)
    (ha : convertible H a = true) (hb : convertible H b = true)
    (hqa : jakoscKey H a ∉ objectProtoKeys) (hqb : jakoscKey H b ∉ objectProtoKeys)
    (ht : H.localeCompare (typText H a) (typText H b) = 0 → typText H a = typText H b)
    (hn : H.localeCompare (nazwaText H a) (nazwaText H b) = 0 →
      nazwaText H a = nazwaText H b) :
    compareItems H a b = some (.fin (keyCompareItems H a b)) := by
  obtain ⟨ka, ta, na, ia⟩ := convertible_texts H a ha
  obtain ⟨kb, tb, nb, ib⟩ := convertible_texts H b hb
  unfold compareItems compareNames keyCompareItems lexCmp
  rw [ka, kb, ta, tb, na, nb, ia, ib, qorderAt_rank H a hqa, qorderAt_rank H b hqb]
  simp only []
  by_cases h1 : lvlOf a = lvlOf b
  · have h1' : lvlOf a - lvlOf b = 0 := sub_eq_zero.mpr h1
    rw [if_neg (not_not.mpr h1), if_neg (not_not.mpr h1')]
    by_cases h2 : rankOf H a = rankOf H b
    · have h2' : (rankOf H a : ℚ) - (rankOf H b : ℚ) = 0 := by rw [h2]; exact sub_self _
      have h2'' : QVal.rank (rankOf H a) = QVal.rank (rankOf H b) := by rw [h2]
      rw [if_neg (not_not.mpr h2''), if_neg (not_not.mpr h2')]
      by_cases h3 : typText H a = typText H b
      · have h3' : (H.localeCompare (typText H a) (typText H b) : ℚ) = 0 := by
          rw [h3, H.compare_self]; rfl
        rw [if_neg (not_not.mpr h3), if_neg (not_not.mpr h3')]
        by_cases h4 : nazwaText H a = nazwaText H b
        · have h4' : (H.localeCompare (nazwaText H a) (nazwaText H b) : ℚ) = 0 := by
            rw [h4, H.compare_self]; rfl
          rw [if_neg (not_not.mpr h4), if_neg (not_not.mpr h4')]
        · have h4' : ¬ (H.localeCompare (nazwaText H a) (nazwaText H b) : ℚ) = 0 := by
            intro e
            exact h4 (hn (by exact_mod_cast e))
          rw [if_pos h4, if_pos h4']
      · have h3' : ¬ (H.localeCompare (typText H a) (typText H b) : ℚ) = 0 := by
          intro e
          exact h3 (ht (by exact_mod_cast e))
        rw [if_pos h3, if_pos h3']
    · have h2' : ¬ (rankOf H a : ℚ) - (rankOf H b : ℚ) = 0 := by
        intro e
        exact h2 (by exact_mod_cast sub_eq_zero.mp e)
      have h2'' : ¬ QVal.rank (rankOf H a) = QVal.rank (rankOf H b) := by
        intro e
        exact h2 (QVal.rank.inj e)
      rw [if_pos h2'', if_pos h2']
      rfl
  · have h1' : ¬ lvlOf a - lvlOf b = 0 := fun e => h1 (sub_eq_zero.mp e)
    rw [if_pos h1, if_pos h1']

/-! ## The claims -/

/-- C1, as stated, fails: on a list of two records, one of which has an object
with its own `toString` key as `typ`, the comparator throws a `TypeError`, so
`sortItems` returns no sequence at all. (The second part records why the
amended claim asks for a consistent comparator: with an inherited quality name
in the list the comparator is not transitive, and the language then leaves the
order of the result to the engine.) -/
theorem sortItems_throws_on_unprintable_typ :
    sortItems refHost [[("id", .str "1"), ("typ", .obj [("toString", .num 1)])],
        [("id", .str "2")]] = none ∧
    (¬ ∃ out, sortItems refHost [[("id", .str "1"), ("typ", .obj [("toString", .num 1)])],
        [("id", .str "2")]] = some out ∧ sortItems refHost out = some out) ∧
    (sortLe refHost [("id", .str "b"), ("jakosc", .str "Legendarna")]
        [("id", .str "x"), ("jakosc", .str "constructor")] = true ∧
      sortLe refHost [("id", .str "x"), ("jakosc", .str "constructor")]
        [("id", .str "a"), ("jakosc", .str "Zwykła")] = true ∧
      sortLe refHost [("id", .str "b"), ("jakosc", .str "Legendarna")]
        [("id", .str "a"), ("jakosc", .str "Zwykła")] = false) := by
  have h : sortItems refHost [[("id", .str "1"), ("typ", .obj [("toString", .num 1)])],
      [("id", .str "2")]] = none := by decide!
  refine ⟨h, ?_, by decide!⟩
  rintro ⟨out, hout, _⟩
  rw [h] at hout
  exact Option.noConfusion hout

/-- C1, amended: on every list of records on which the comparator throws for no
two records and is a consistent comparison function (transitive on the records
of the list), `sortItems` returns a sorted permutation of the list, and
`sortItems` of that result returns the same sequence. -/
theorem sortItems_idempotent (H : Host) (xs : List Obj)
    (hc : xs.Pairwise (fun a b => comparable H a b = true))
    (htr : ∀ a ∈ xs, ∀ b ∈ xs, ∀ c ∈ xs,
      sortLe H a b = true → sortLe H b c = true → sortLe H a c = true) :
    ∃ out, sortItems H xs = some out ∧ out.Perm xs ∧
      out.Pairwise (fun a b => sortLe H a b = true) ∧ sortItems H out = some out := by
  obtain ⟨out, hout⟩ := sortItems_returns H xs hc
  have hperm := sortItems_perm H xs out hout
  have hchain := chain_sortItems H xs out hout
  refine ⟨out, hout, hperm, ?_, sortItems_of_chain H out hchain⟩
  exact pairwise_of_chain_on (fun a b => sortLe H a b = true) (fun a => a ∈ xs)
    (fun a b c ha hb hc => htr a ha b hb c hc) out (fun x hx => hperm.mem_iff.mp hx) hchain

/-- C1, amended, at a concrete input: three sample records. -/
theorem sortItems_idempotent_witness :
    [sampleSword2, sampleBow, sampleSword].Pairwise (fun a b => comparable refHost a b = true) ∧
    (∀ a ∈ [sampleSword2, sampleBow, sampleSword], ∀ b ∈ [sampleSword2, sampleBow, sampleSword],
      ∀ c ∈ [sampleSword2, sampleBow, sampleSword],
      sortLe refHost a b = true → sortLe refHost b c = true → sortLe refHost a c = true) ∧
    sortItems refHost [sampleSword2, sampleBow, sampleSword]
      = some [sampleSword, sampleSword2, sampleBow] ∧
    ∃ out, sortItems refHost [sampleSword2, sampleBow, sampleSword] = some out ∧
      out.Perm [sampleSword2, sampleBow, sampleSword] ∧
      out.Pairwise (fun a b => sortLe refHost a b = true) ∧ sortItems refHost out = some out :=
  ⟨by decide!, by decide!, by decide!,
    sortItems_idempotent refHost [sampleSword2, sampleBow, sampleSword]
      (by decide!) (by decide!)⟩

/-- C7, as stated, fails: a record with the numeric level `2000000000` is sorted
behind a record without a level. -/
theorem sortItems_level_above_sentinel :
    numericLevel [("id", .str "a"), ("req_lvl", .num 2000000000)] = some 2000000000 ∧
    numericLevel [("id", .str "b")] = none ∧
    sortItems refHost [[("id", .str "a"), ("req_lvl", .num 2000000000)], [("id", .str "b")]]
      = some [[("id", .str "b")], [("id", .str "a"), ("req_lvl", .num 2000000000)]] := by
  decide!

/-- C7, amended: a missing level is treated as `1e9` by the sort: `sortItems`
returns whenever the comparator throws on no two records of the list, and in the
output of `sortItems` every record whose `req_lvl` is a number below `1e9` (here
`a`, at position `i`) comes before every record whose `req_lvl` is absent or not
a number (here `b`, at position `j`). -/
theorem sortItems_levelled_before_unlevelled (H : Host) (xs : List Obj) :
    (xs.Pairwise (fun a b => comparable H a b = true) → ∃ out, sortItems H xs = some out) ∧
    ∀ (out : List Obj) (i j : ℕ) (a b : Obj) (q : ℚ),
      sortItems H xs = some out → out[i]? = some a → out[j]? = some b →
      numericLevel a = some q → q < 1000000000 → numericLevel b = none → i < j := by
  refine ⟨sortItems_returns H xs, ?_⟩
  intro out i j a b q hs ha hb hq hlt hno
  obtain ⟨hi, hai⟩ := List.getElem?_eq_some.mp ha
  obtain ⟨hj, hbj⟩ := List.getElem?_eq_some.mp hb
  by_contra hij
  have hne : j ≠ i := by
    intro e
    subst e
    rw [hai] at hbj
    rw [hbj, hno] at hq
    exact Option.noConfusion hq
  have hji : j < i := lt_of_le_of_ne (not_lt.mp hij) hne
  have h := List.pairwise_iff_getElem.mp (sortItems_pairwise_lvl H xs out hs) j i hj hi hji
  rw [hai, hbj, lvlOf_of_numericLevel _ q hq, lvlOf_of_not_numeric _ hno] at h
  linarith

/-- C7, amended, at a concrete input: level `5` before no level. -/
theorem sortItems_levelled_before_unlevelled_witness :
    sortItems refHost [[("id", .str "b")], [("id", .str "a"), ("req_lvl", .num 5)]]
      = some [[("id", .str "a"), ("req_lvl", .num 5)], [("id", .str "b")]] ∧
    numericLevel [("id", .str "a"), ("req_lvl", .num 5)] = some 5 ∧
    (5 : ℚ) < 1000000000 ∧
    numericLevel [("id", .str "b")] = none ∧
    0 < 1 :=
  ⟨by decide!, by decide!, by norm_num, by decide!,
    (sortItems_levelled_before_unlevelled refHost
      [[("id", .str "b")], [("id", .str "a"), ("req_lvl", .num 5)]]).2
      [[("id", .str "a"), ("req_lvl", .num 5)], [("id", .str "b")]] 0 1
      [("id", .str "a"), ("req_lvl", .num 5)] [("id", .str "b")] 5
      (by decide!) (by decide!) (by decide!) (by decide!) (by norm_num) (by decide!)⟩

/-- C8 at the failing input: the quality name `constructor` is not one of the
five, yet the lookup finds the inherited property, the comparator returns `NaN`
against a record of known quality, and the record stays in front of it. -/
theorem sortItems_inherited_quality_name (H : Host) :
    compareItems H [("id", .str "1"), ("jakosc", .str "constructor")]
        [("id", .str "2"), ("jakosc", .str "Zwykła")] = some .nan ∧
    sortItems H [[("id", .str "1"), ("jakosc", .str "constructor")],
        [("id", .str "2"), ("jakosc", .str "Zwykła")]]
      = some [[("id", .str "1"), ("jakosc", .str "constructor")],
         [("id", .str "2"), ("jakosc", .str "Zwykła")]] := by
  have hq1 : qorderOr99 H (Obj.get [("id", .str "1"), ("jakosc", .str "constructor")] "jakosc")
      = some (.inherited "constructor") := by
    simp [qorderOr99, qorderAt, jsStringOpt, jsString, QORDER, List.lookup, objectProtoKeys,
      Obj.get]
  have hq2 : qorderOr99 H (Obj.get [("id", .str "2"), ("jakosc", .str "Zwykła")] "jakosc")
      = some (.rank 0) := by
    simp [qorderOr99, qorderAt, jsStringOpt, jsString, QORDER, List.lookup, Obj.get]
  have hl1 : lvlOf [("id", .str "1"), ("jakosc", .str "constructor")] = 1000000000 := by
    decide!
  have hl2 : lvlOf [("id", .str "2"), ("jakosc", .str "Zwykła")] = 1000000000 := by
    decide!
  have hc : compareItems H [("id", .str "1"), ("jakosc", .str "constructor")]
        [("id", .str "2"), ("jakosc", .str "Zwykła")] = some .nan := by
    unfold compareItems
    rw [hq1, hq2, hl1, hl2]
    simp [qvalSub]
  refine ⟨hc, ?_⟩
  simp [sortItems, sortInsert, hc, sortNumber]

/-- C4 at the failing input: for array input an existing `id` is not coerced: the
number `42` stays a number, and a `null` id stays `null`. -/
theorem toArray_array_keeps_raw_id (H : Host) :
    toArray H (.array [[("id", .num 42), ("nazwa", .str "Topór")]])
      = some [[("id", .num 42), ("nazwa", .str "Topór")]] ∧
    toArray H (.array [[("id", .null)]]) = some [[("id", .null)]] := by
  constructor <;>
    simp [toArray, normalizeEntries, jsString, nullish, spread, Obj.get, Obj.set]

/-- C3, as stated, fails: the value object's own `id` wins over the map key. -/
theorem toArray_map_own_id_wins :
    toArray refHost (.map [("42", [("id", .str "7"), ("nazwa", .str "Topór")])])
      = some [[("id", .str "7"), ("nazwa", .str "Topór")]] := by
  decide!

/-- C3, amended: for mapping input `toArray` returns, and entry by entry the
record's `id` is the value object's own `id` when it has one, and the map key (a
string) when it has none. -/
theorem toArray_map_id (H : Host) (entries : List (String × Obj)) :
    ∃ records, toArray H (.map entries) = some records ∧
      List.Forall₂
        (fun e r => Obj.get r "id" = some (match Obj.get e.2 "id" with
          | some v => v
          | none => .str e.1))
        entries records := by
  refine ⟨_, rfl, ?_⟩
  induction entries with
  | nil => exact List.Forall₂.nil
  | cons e rest ih =>
    refine List.Forall₂.cons ?_ ih
    rw [get_spread]
    cases Obj.get e.2 "id" <;> simp [Obj.get]

/-- C9: `classesOf` reconciles the class field by first matching shape: `klasy`
if it is an array, else `Class` if it is an array, else `[Class]` if `Class` is
a string, else the empty sequence; with the two examples of the
specification. -/
theorem classesOf_eq_spec (entry : Obj) :
    classesOf entry = classesOfSpec entry ∧
    classesOf [("klasy", .arr [.str "Wojownik"]), ("Class", .arr [.str "Mag"])]
      = [.str "Wojownik"] ∧
    classesOf [("Class", .str "Mag")] = [.str "Mag"] := by
  refine ⟨?_, by decide!, by decide!⟩
  unfold classesOf classesOfSpec
  cases h1 : entry.get "klasy" with
  | none =>
    cases h2 : entry.get "Class" with
    | none => simp [isArray, isString, elems]
    | some w => cases w <;> simp [isArray, isString, elems]
  | some v =>
    cases v with
    | arr xs => simp [isArray, elems]
    | null =>
      cases h2 : entry.get "Class" with
      | none => simp [isArray, isString, elems]
      | some w => cases w <;> simp [isArray, isString, elems]
    | bool b =>
      cases h2 : entry.get "Class" with
      | none => simp [isArray, isString, elems]
      | some w => cases w <;> simp [isArray, isString, elems]
    | num q =>
      cases h2 : entry.get "Class" with
      | none => simp [isArray, isString, elems]
      | some w => cases w <;> simp [isArray, isString, elems]
    | str s =>
      cases h2 : entry.get "Class" with
      | none => simp [isArray, isString, elems]
      | some w => cases w <;> simp [isArray, isString, elems]
    | obj kvs =>
      cases h2 : entry.get "Class" with
      | none => simp [isArray, isString, elems]
      | some w => cases w <;> simp [isArray, isString, elems]

/-- C6: the grouping done in `render` equals the reference grouping: the groups
are the non-empty classes of the input by level key, integer keys strictly
ascending, then (only if some record has no numeric `req_lvl`) the no-level
group; every input record is in exactly one group; each group lists its records
in input order; with the example of the specification. -/
theorem renderGroups_reference (items : List Obj) :
    renderGroups items = groupSpec items ∧
    (∃ ks : List Int, ks.Sorted (fun a b => a < b) ∧
      (renderGroups items).map Prod.fst
        = ks.map some
          ++ (if items.filter (fun it => levelKey it = none) = [] then [] else [none])) ∧
    (∀ g ∈ renderGroups items,
      g.2 ≠ [] ∧ g.2 = items.filter (fun it => levelKey it = g.1)) ∧
    (∀ it ∈ items, ∃! g, g ∈ renderGroups items ∧ it ∈ g.2) ∧
    renderGroups [[("id", .str "a"), ("req_lvl", .num 5)], [("id", .str "b")],
        [("id", .str "c"), ("req_lvl", .num 1)]]
      = [(some 1, [[("id", .str "c"), ("req_lvl", .num 1)]]),
         (some 5, [[("id", .str "a"), ("req_lvl", .num 5)]]),
         (none, [[("id", .str "b")]])] := by
  refine ⟨renderGroups_eq_groupSpec items, ?_, ?_, ?_, by decide!⟩
  · refine ⟨_, sortedKeys_strict items, ?_⟩
    rw [renderGroups_eq_groupSpec, groupSpec_keys]
  · intro g hg
    rw [renderGroups_eq_groupSpec] at hg
    exact mem_groupSpec items g hg
  · intro it hit
    refine ⟨(levelKey it, items.filter (fun x => levelKey x = levelKey it)), ⟨?_, ?_⟩, ?_⟩
    · rw [renderGroups_eq_groupSpec]
      exact groupSpec_covers items it hit
    · simp [List.mem_filter, hit]
    · rintro g ⟨hg, hmem⟩
      rw [renderGroups_eq_groupSpec] at hg
      have h2 := (mem_groupSpec items g hg).2
      have h1 : levelKey it = g.1 := by
        rw [h2] at hmem
        simpa using (List.mem_filter.mp hmem).2
      rw [h1]
      exact Prod.ext rfl h2

/-- C10, as stated, fails: `4294967296|0` is `0`, so a record of level
`4294967296` is filed under key `0`, in one group with a record of level `0`,
although the integer parts differ. -/
theorem levelKey_wraps_at_two_pow_32 :
    levelKey [("id", .str "b"), ("req_lvl", .num 4294967296)] = some 0 ∧
    truncate 4294967296 = 4294967296 ∧
    truncate 0 ≠ truncate 4294967296 ∧
    renderGroups [[("id", .str "a"), ("req_lvl", .num 0)],
        [("id", .str "b"), ("req_lvl", .num 4294967296)]]
      = [(some 0, [[("id", .str "a"), ("req_lvl", .num 0)],
          [("id", .str "b"), ("req_lvl", .num 4294967296)]])] := by
  decide!

/-- C10, amended: for records whose level has an integer part in the signed
32-bit range, the key of the group `render` files the record in is the level
truncated to its integer part, and two such records share a group exactly when
their levels have the same integer part. -/
theorem levelKey_truncates_in_range (items : List Obj) (a b : Obj) (qa qb : ℚ)
    (ha : a ∈ items) (hb : b ∈ items)
    (hqa : numericLevel a = some qa) (hqb : numericLevel b = some qb)
    (hra : -2147483648 ≤ truncate qa ∧ truncate qa < 2147483648)
    (hrb : -2147483648 ≤ truncate qb ∧ truncate qb < 2147483648) :
    (some (truncate qa), items.filter (fun x => levelKey x = some (truncate qa)))
      ∈ renderGroups items ∧
    a ∈ items.filter (fun x => levelKey x = some (truncate qa)) ∧
    ((∃ g ∈ renderGroups items, a ∈ g.2 ∧ b ∈ g.2) ↔ truncate qa = truncate qb) := by
  have hka : levelKey a = some (truncate qa) := by
    rw [levelKey_of_numericLevel a qa hqa, toInt32_of_range qa hra.1 hra.2]
  have hkb : levelKey b = some (truncate qb) := by
    rw [levelKey_of_numericLevel b qb hqb, toInt32_of_range qb hrb.1 hrb.2]
  have hcov := groupSpec_covers items a ha
  rw [hka, ← renderGroups_eq_groupSpec] at hcov
  refine ⟨hcov, by simp [List.mem_filter, ha, hka], ?_⟩
  constructor
  · rintro ⟨g, hg, hag, hbg⟩
    rw [renderGroups_eq_groupSpec] at hg
    have h2 := (mem_groupSpec items g hg).2
    rw [h2] at hag hbg
    have h1 : levelKey a = g.1 := by simpa using (List.mem_filter.mp hag).2
    have h3 : levelKey b = g.1 := by simpa using (List.mem_filter.mp hbg).2
    rw [hka] at h1
    rw [hkb, ← h1] at h3
    exact (Option.some.inj h3).symm
  · intro e
    refine ⟨_, hcov, by simp [List.mem_filter, ha, hka], ?_⟩
    simp [List.mem_filter, hb, hkb, e]

/-- C10, amended, at a concrete input: levels `7/2` and `3` share the group of
key `3`. -/
theorem levelKey_truncates_in_range_witness :
    ([("id", .str "a"), ("req_lvl", .num (7 / 2))] : Obj)
      ∈ [[("id", .str "a"), ("req_lvl", .num (7 / 2))], [("id", .str "b"), ("req_lvl", .num 3)]] ∧
    numericLevel [("id", .str "a"), ("req_lvl", .num (7 / 2))] = some (7 / 2) ∧
    numericLevel [("id", .str "b"), ("req_lvl", .num 3)] = some 3 ∧
    (-2147483648 ≤ truncate (7 / 2) ∧ truncate (7 / 2) < 2147483648) ∧
    (-2147483648 ≤ truncate 3 ∧ truncate 3 < 2147483648) ∧
    truncate (7 / 2) = 3 ∧
    ((∃ g ∈ renderGroups
        [[("id", .str "a"), ("req_lvl", .num (7 / 2))], [("id", .str "b"), ("req_lvl", .num 3)]],
        [("id", .str "a"), ("req_lvl", .num (7 / 2))] ∈ g.2 ∧
        [("id", .str "b"), ("req_lvl", .num 3)] ∈ g.2) ↔ truncate (7 / 2) = truncate 3) :=
  ⟨by decide!, by decide!, by decide!, by decide!, by decide!, by decide!,
    (levelKey_truncates_in_range
      [[("id", .str "a"), ("req_lvl", .num (7 / 2))], [("id", .str "b"), ("req_lvl", .num 3)]]
      [("id", .str "a"), ("req_lvl", .num (7 / 2))] [("id", .str "b"), ("req_lvl", .num 3)]
      (7 / 2) 3 (by decide!) (by decide!) (by decide!) (by decide!) (by decide!)
      (by decide!)).2.2⟩

/-- C5, as stated, fails: the class list is read back from its text joined
with commas, so the single class name `Mag, Wojownik` makes the entry visible
under the class filter `Wojownik`, which `classesOf` does not contain. -/
theorem visible_splits_class_names :
    renderLi refHost [("id", .str "7"), ("klasy", .arr [.str "Mag, Wojownik"])]
      = some { name := "(bez nazwy)", dataId := "7", dataTyp := "", dataJakosc := "",
               dataKlasy := "Mag, Wojownik", dataReq := "" } ∧
    visible refHost ⟨"", "Wojownik", "", ""⟩
        [("id", .str "7"), ("klasy", .arr [.str "Mag, Wojownik"])] = some true ∧
    JVal.str "Wojownik" ∉ classesOf [("id", .str "7"), ("klasy", .arr [.str "Mag, Wojownik"])] ∧
    ¬ filterSpec refHost ⟨"", "Wojownik", "", ""⟩
        [("id", .str "7"), ("klasy", .arr [.str "Mag, Wojownik"])]
        { name := "(bez nazwy)", dataId := "7", dataTyp := "", dataJakosc := "",
          dataKlasy := "Mag, Wojownik", dataReq := "" } := by
  decide!

/-- C5, amended: for every record `it` that `render` renders (as the entry
`li`) and every setting in which no class is selected or the record's classes
are strings without a comma and without white space at either end,
`applyFilters` shows the record if and only if every active criterion matches:
query, class (an element of `classesOf`), type and quality; with all four
criteria empty every rendered record is visible; and the typ and jakosc the
entry carries are the record's own where these are strings (empty where they are
absent). -/
theorem visible_iff_filterSpec (H : Host) (c : Controls) (it : Obj) (li : Li)
    (hr : renderLi H it = some li)
    (hcls : c.klasa ≠ "" → ∀ v ∈ classesOf it, cleanClass v) :
    (visible H c it = some true ↔ filterSpec H c it li) ∧
    visible H ⟨"", "", "", ""⟩ it = some true ∧
    (∀ s, it.get "typ" = some (.str s) → li.dataTyp = s) ∧
    (it.get "typ" = none → li.dataTyp = "") ∧
    (∀ s, it.get "jakosc" = some (.str s) → li.dataJakosc = s) ∧
    (it.get "jakosc" = none → li.dataJakosc = "") := by
  have ht := renderLi_typ H it li hr
  have hj := renderLi_jakosc H it li hr
  refine ⟨?_, ?_, ?_, ?_, ?_, ?_⟩
  · unfold visible filterSpec
    rw [hr, Option.map_some', Option.some.injEq, applyFilter_iff]
    refine and_congr Iff.rfl (and_congr ?_ Iff.rfl)
    by_cases hk : c.klasa = ""
    · simp [hk]
    · simp only [hk, false_or]
      exact klasa_match H it li c.klasa hk hr (hcls hk)
  · unfold visible
    rw [hr, Option.map_some', Option.some.injEq, applyFilter_iff]
    simp
  · intro s hs
    rw [hs] at ht
    exact text_of_str H s li.dataTyp ht
  · intro hn
    rw [hn] at ht
    simpa [orElse, jsString] using ht.symm
  · intro s hs
    rw [hs] at hj
    exact text_of_str H s li.dataJakosc hj
  · intro hn
    rw [hn] at hj
    simpa [orElse, jsString] using hj.symm

/-- C5, amended, at the example of the specification: with the query `miecz`,
the class `Wojownik` and the type `Broń`, the record `Miecz` is visible. -/
theorem visible_iff_filterSpec_witness :
    renderLi refHost sampleSword = some sampleSwordLi ∧
    (∀ v ∈ classesOf sampleSword, cleanClass v) ∧
    filterSpec refHost ⟨"miecz", "Wojownik", "Broń", ""⟩ sampleSword sampleSwordLi ∧
    visible refHost ⟨"miecz", "Wojownik", "Broń", ""⟩ sampleSword = some true ∧
    visible refHost ⟨"", "", "", ""⟩ sampleSword = some true :=
  have hcls : ∀ v ∈ classesOf sampleSword, cleanClass v := by
    intro v hv
    have hc : classesOf sampleSword = [.str "Wojownik"] := by decide!
    rw [hc, List.mem_singleton] at hv
    exact ⟨"Wojownik", hv, by decide!, by decide!⟩
  have h := visible_iff_filterSpec refHost ⟨"miecz", "Wojownik", "Broń", ""⟩ sampleSword
    sampleSwordLi (by decide!) (fun _ => hcls)
  ⟨by decide!, hcls, by decide!, h.1.mpr (by decide!), h.2.1⟩

/-- C2, as stated, fails: two records whose ids are distinct strings, the letter
U+00F3 and its canonically equivalent spelling `o` followed by U+0301, are tied
by the comparator (`localeCompare` returns 0 for canonically equivalent strings),
so the stable sort keeps the input order and a permutation sorts differently. -/
theorem sortItems_ties_equivalent_ids :
    Obj.get [("id", .str "\u00f3")] "id" ≠ Obj.get [("id", .str "o\u0301")] "id" ∧
    idOf refHost [("id", .str "\u00f3")] ≠ idOf refHost [("id", .str "o\u0301")] ∧
    compareItems refHost [("id", .str "\u00f3")] [("id", .str "o\u0301")] = some (.fin 0) ∧
    sortItems refHost [[("id", .str "\u00f3")], [("id", .str "o\u0301")]]
      = some [[("id", .str "\u00f3")], [("id", .str "o\u0301")]] ∧
    sortItems refHost [[("id", .str "o\u0301")], [("id", .str "\u00f3")]]
      = some [[("id", .str "o\u0301")], [("id", .str "\u00f3")]] ∧
    sortItems refHost [[("id", .str "o\u0301")], [("id", .str "\u00f3")]]
      ≠ sortItems refHost [[("id", .str "\u00f3")], [("id", .str "o\u0301")]] := by
  decide!

/-- C2, amended: on a list of records on which the comparator's conversions to
text succeed, no `jakosc` names a property inherited from `Object.prototype`,
`localeCompare` ties no two different `typ` texts, `nazwa` texts or `id` texts,
and the `id` texts are pairwise distinct, the comparator of `sortItems` never
reports a tie between two records of different id, and `sortItems` returns the
same sequence for the list and for every permutation of it. -/
theorem sortItems_perm_invariant (H : Host) (xs ys : List Obj)
    (hv : ∀ a ∈ xs, convertible H a = true)
    (hq : ∀ a ∈ xs, jakoscKey H a ∉ objectProtoKeys)
    (ht : ∀ a ∈ xs, ∀ b ∈ xs,
      H.localeCompare (typText H a) (typText H b) = 0 → typText H a = typText H b)
    (hn : ∀ a ∈ xs, ∀ b ∈ xs,
      H.localeCompare (nazwaText H a) (nazwaText H b) = 0 → nazwaText H a = nazwaText H b)
    (hi : ∀ a ∈ xs, ∀ b ∈ xs,
      H.localeCompare (idText H a) (idText H b) = 0 → idText H a = idText H b)
    (hid : (xs.map (idText H)).Nodup) (hp : ys.Perm xs) :
    (∀ a ∈ xs, ∀ b ∈ xs, idText H a ≠ idText H b →
      ∃ v, compareItems H a b = some v ∧ sortNumber v ≠ 0) ∧
    ∃ out, sortItems H xs = some out ∧ sortItems H ys = some out := by
  have heq : ∀ a ∈ xs, ∀ b ∈ xs, compareItems H a b = some (.fin (keyCompareItems H a b)) :=
    fun a ha b hb =>
      compareItems_eq_key H a b (hv a ha) (hv b hb) (hq a ha) (hq b hb) (ht a ha b hb)
        (hn a ha b hb)
  have hle : ∀ a ∈ xs, ∀ b ∈ xs, (sortLe H a b = true ↔ keyCompareItems H a b ≤ 0) := by
    intro a ha b hb
    unfold sortLe
    rw [heq a ha b hb]
    simp [sortNumber]
  have hcons := consistent_keyCompareItems H
  have zero_id : ∀ a ∈ xs, ∀ b ∈ xs, keyCompareItems H a b = 0 → idText H a = idText H b := by
    intro a ha b hb h0
    have h5 := (lexCmp_eq_zero _ _ a b
      (lexCmp_eq_zero _ _ a b
        (lexCmp_eq_zero _ _ a b (lexCmp_eq_zero _ _ a b h0).2).2).2).2
    exact hi a ha b hb (by exact_mod_cast h5)
  have tr : ∀ a b c, a ∈ xs → b ∈ xs → c ∈ xs →
      sortLe H a b = true → sortLe H b c = true → sortLe H a c = true := by
    intro a b c ha hb hc hab hbc
    rw [hle a ha b hb] at hab
    rw [hle b hb c hc] at hbc
    rw [hle a ha c hc]
    exact hcons.trans a b c hab hbc
  have anti : ∀ a ∈ xs, ∀ b ∈ xs, sortLe H a b = true → sortLe H b a = true → a = b := by
    intro a ha b hb hab hba
    rw [hle a ha b hb] at hab
    rw [hle b hb a ha] at hba
    have h0 : keyCompareItems H a b = 0 :=
      le_antisymm hab (hcons.nonneg_swap b a hba)
    exact List.inj_on_of_nodup_map hid ha hb (zero_id a ha b hb h0)
  have hcx : xs.Pairwise (fun a b => comparable H a b = true) :=
    List.pairwise_of_forall_mem_list (fun a ha b hb => by
      unfold comparable
      rw [heq a ha b hb]
      rfl)
  have hcy : ys.Pairwise (fun a b => comparable H a b = true) :=
    List.pairwise_of_forall_mem_list (fun a ha b hb => by
      unfold comparable
      rw [heq a (hp.mem_iff.mp ha) b (hp.mem_iff.mp hb)]
      rfl)
  refine ⟨?_, ?_⟩
  · intro a ha b hb hne
    refine ⟨_, heq a ha b hb, ?_⟩
    simp only [sortNumber]
    exact fun h0 => hne (zero_id a ha b hb h0)
  obtain ⟨ox, hox⟩ := sortItems_returns H xs hcx
  obtain ⟨oy, hoy⟩ := sortItems_returns H ys hcy
  have px := sortItems_perm H xs ox hox
  have py := sortItems_perm H ys oy hoy
  have sx : ox.Pairwise (fun a b => sortLe H a b = true) :=
    pairwise_of_chain_on (fun a b => sortLe H a b = true) (fun a => a ∈ xs) tr ox
      (fun x hx => px.mem_iff.mp hx) (chain_sortItems H xs ox hox)
  have sy : oy.Pairwise (fun a b => sortLe H a b = true) :=
    pairwise_of_chain_on (fun a b => sortLe H a b = true) (fun a => a ∈ xs) tr oy
      (fun x hx => hp.mem_iff.mp (py.mem_iff.mp hx)) (chain_sortItems H ys oy hoy)
  have hperm : oy.Perm ox := (py.trans hp).trans px.symm
  have mem_y : ∀ a ∈ oy, a ∈ xs := fun a ha => hp.mem_iff.mp (py.mem_iff.mp ha)
  have e : oy = ox := eq_of_perm_of_sorted_on (fun a b => sortLe H a b = true) oy ox hperm sy sx
    (fun a ha b hb => anti a (mem_y a ha) b (mem_y b hb))
  exact ⟨ox, hox, by rw [hoy, e]⟩

/-- C2, amended, at a concrete input: three records, two of which differ in
`id` only, sorted from two different orders. -/
theorem sortItems_perm_invariant_witness :
    (∀ a ∈ [sampleSword, sampleBow, sampleSword2], convertible refHost a = true) ∧
    (∀ a ∈ [sampleSword, sampleBow, sampleSword2], jakoscKey refHost a ∉ objectProtoKeys) ∧
    (∀ a ∈ [sampleSword, sampleBow, sampleSword2], ∀ b ∈ [sampleSword, sampleBow, sampleSword2],
      refHost.localeCompare (typText refHost a) (typText refHost b) = 0 →
        typText refHost a = typText refHost b) ∧
    (∀ a ∈ [sampleSword, sampleBow, sampleSword2], ∀ b ∈ [sampleSword, sampleBow, sampleSword2],
      refHost.localeCompare (nazwaText refHost a) (nazwaText refHost b) = 0 →
        nazwaText refHost a = nazwaText refHost b) ∧
    (∀ a ∈ [sampleSword, sampleBow, sampleSword2], ∀ b ∈ [sampleSword, sampleBow, sampleSword2],
      refHost.localeCompare (idText refHost a) (idText refHost b) = 0 →
        idText refHost a = idText refHost b) ∧
    (List.map (idText refHost) [sampleSword, sampleBow, sampleSword2]).Nodup ∧
    [sampleSword2, sampleBow, sampleSword].Perm [sampleSword, sampleBow, sampleSword2] ∧
    sortItems refHost [sampleSword, sampleBow, sampleSword2]
      = some [sampleSword, sampleSword2, sampleBow] ∧
    ∃ out, sortItems refHost [sampleSword, sampleBow, sampleSword2] = some out ∧
      sortItems refHost [sampleSword2, sampleBow, sampleSword] = some out :=
  ⟨by decide!, by decide!, by decide!, by decide!, by decide!, by decide!, by decide!,
    by decide!,
    (sortItems_perm_invariant refHost [sampleSword, sampleBow, sampleSword2]
      [sampleSword2, sampleBow, sampleSword]
      (by decide!) (by decide!) (by decide!) (by decide!) (by decide!) (by decide!)
      (by decide!)).2⟩

end RpgItems
